import Mathlib

/-!
Verification of the balance-resolution engine of `src/balance.rs`
(`get_balance_map`), shallowly embedded in Lean.

Modelling conventions, justified against the source:

* Field elements (`starknet::core::types::Felt`) are modelled as `Nat`.
  `get_balance_map` never performs field arithmetic on them; it only
  compares them for equality and uses them as map keys.
* External crate functions that the engine calls — `pedersen_hash`,
  `starknet_keccak("ERC20_balances")`, `Felt::from_hex`, and the
  `format!("{token:#064x}")[2..]` / `hex::decode` token-to-blob encoding —
  are not source code of this repository.  They are abstracted as the
  fields of an `Externals` record, so every theorem quantifies over them;
  witnesses instantiate them with executable stand-ins (`mkFromHex`, …).
* The SQLite log is modelled by the three tables of the repository's own
  schema (see the `create_test_database` test helper): `contract_addresses`,
  `storage_addresses` (both `id INTEGER PRIMARY KEY` riding a BLOB column)
  and `storage_updates`.  Ids are modelled as `Nat` (the schema's
  autoincrement ids are positive) and BLOBs as byte lists (`List Nat`).
  `id INTEGER PRIMARY KEY` makes the id column unique; theorems that need
  this carry it as an explicit `Nodup` hypothesis.
* The shard query
  `SELECT hex(ca.contract_address), hex(sa.storage_address), hex(storage_value),
   MAX(block_number) … WHERE contract_address = ?1 AND (sa.id % ?2) = ?3
   GROUP BY contract_address_id, storage_address_id`
  is modelled relationally: inner join, filter, group by the two id
  columns.  Per SQLite's documented semantics for a single `MAX` aggregate,
  the bare columns of each group are taken from a row attaining the
  maximal `block_number` (`pickMax` keeps the first strict maximum in scan
  order).  SQLite does not specify the output order of `GROUP BY` groups;
  the model uses first-appearance order (`dedupF`), and every theorem whose
  truth could depend on group order carries hypotheses making it irrelevant.
* `shards_per_token` is computed in the source from
  `rayon::current_num_threads()`; it is environment-dependent, so the model
  takes it as an explicit parameter `S` (the source guarantees `S ≥ 1` via
  `max(1, …)`).
* Rayon's `par_iter().map(…).collect::<Vec<_>>()` preserves index order
  regardless of task completion order, so shard and token results are
  modelled as plain ordered lists.
* Failures of `Connection::open`, `prepare`, `query_map` and row
  collection are environmental; they are modelled by a fault-injection
  parameter `faults : token → shard index → Option Fault`.  The error
  strings are exactly the ones built by the `map_err` calls in the source;
  note none of them mentions the shard index.
-/

/-- One uppercase hex digit, as produced by SQLite's `hex()`. -/
def hexChar (n : Nat) : Char :=
  if n = 0 then '0' else if n = 1 then '1' else if n = 2 then '2'
  else if n = 3 then '3' else if n = 4 then '4' else if n = 5 then '5'
  else if n = 6 then '6' else if n = 7 then '7' else if n = 8 then '8'
  else if n = 9 then '9' else if n = 10 then 'A' else if n = 11 then 'B'
  else if n = 12 then 'C' else if n = 13 then 'D' else if n = 14 then 'E'
  else 'F'

/-- SQLite `hex()` of a single byte: two uppercase hex digits. -/
def hexOfByte (b : Nat) : String :=
  String.mk [hexChar (b / 16 % 16), hexChar (b % 16)]

/-- SQLite `hex()` of a BLOB: the concatenation of its bytes' hex digits. -/
def hexOfBytes (bs : List Nat) : String :=
  String.join (bs.map hexOfByte)

/-- The Stark field prime `2^251 + 17·2^192 + 1`. -/
def starkPrime : Nat := 2 ^ 251 + 17 * 2 ^ 192 + 1

/-- Value of one hex digit character, either case; `none` otherwise. -/
def hexDigitVal (c : Char) : Option Nat :=
  if c = '0' then some 0 else if c = '1' then some 1 else if c = '2' then some 2
  else if c = '3' then some 3 else if c = '4' then some 4 else if c = '5' then some 5
  else if c = '6' then some 6 else if c = '7' then some 7 else if c = '8' then some 8
  else if c = '9' then some 9
  else if c = 'a' then some 10 else if c = 'A' then some 10
  else if c = 'b' then some 11 else if c = 'B' then some 11
  else if c = 'c' then some 12 else if c = 'C' then some 12
  else if c = 'd' then some 13 else if c = 'D' then some 13
  else if c = 'e' then some 14 else if c = 'E' then some 14
  else if c = 'f' then some 15 else if c = 'F' then some 15
  else none

/-- Accumulating hex parse; fails on the first non-hex character. -/
def hexNatAux : List Char → Nat → Option Nat
  | [], acc => some acc
  | c :: cs, acc =>
    match hexDigitVal c with
    | none => none
    | some d => hexNatAux cs (acc * 16 + d)

/-- Executable stand-in for `Felt::from_hex` used by witnesses: optional
`0x` prefix, at least one hex digit, value below the Stark prime.
The theorems themselves treat the parser abstractly (`Externals.fromHex`). -/
def mkFromHex (s : String) : Option Nat :=
  let cs : List Char :=
    match s.toList with
    | '0' :: 'x' :: rest => rest
    | l => l
  match cs with
  | [] => none
  | _ :: _ =>
    match hexNatAux cs 0 with
    | none => none
    | some n => if n < starkPrime then some n else none

/-- Lookup in an association-list model of `HashMap` (keys are `Nat`). -/
def SMap.lookup {α : Type} : List (Nat × α) → Nat → Option α
  | [], _ => none
  | (k', v) :: rest, k => if k = k' then some v else SMap.lookup rest k

/-- Key-sorted insert-or-replace: the canonical-form model of
`HashMap::insert`.  Keeping the list sorted by key makes extensionally
equal maps definitionally comparable (`HashMap` itself is unordered). -/
def SMap.insert {α : Type} : List (Nat × α) → Nat → α → List (Nat × α)
  | [], k, v => [(k, v)]
  | (k', v') :: rest, k, v =>
    if k < k' then (k, v) :: (k', v') :: rest
    else if k = k' then (k, v) :: rest
    else (k', v') :: SMap.insert rest k v

/-- The deserialized input of `get_balance_map` (`struct Addresses`). -/
structure Addresses where
  accounts : List Nat
  tokens : List Nat
deriving DecidableEq

/-- One row of the `storage_updates` table. -/
structure UpdateRow where
  contract_address_id : Nat
  storage_address_id : Nat
  storage_value : List Nat
  block_number : Int
deriving DecidableEq

/-- The SQLite storage log, per the repository's schema: two interning
tables (`id INTEGER PRIMARY KEY`, BLOB payload) and the update log. -/
structure DB where
  contract_addresses : List (Nat × List Nat)
  storage_addresses : List (Nat × List Nat)
  storage_updates : List UpdateRow
deriving DecidableEq

/-- The external crate functions `get_balance_map` calls:
`pedersen_hash`, `starknet_keccak("ERC20_balances")`, `Felt::from_hex`,
and the token-to-blob encoding
`hex::decode(&format!("{token:#064x}")[2..]).unwrap_or_default()`. -/
structure Externals where
  pedersen : Nat → Nat → Nat
  balancesSelector : Nat
  fromHex : String → Option Nat
  tokenEnc : Nat → List Nat

/-- A row of the three-table inner join, before grouping: the
`storage_updates` row plus the joined storage-address and
contract-address BLOBs. -/
structure JRow where
  upd : UpdateRow
  sbytes : List Nat
  cbytes : List Nat
deriving DecidableEq

/-- The `GROUP BY` key of the shard query:
`(contract_address_id, storage_address_id)`. -/
def jkey (r : JRow) : Nat × Nat :=
  (r.upd.contract_address_id, r.upd.storage_address_id)

/-- The join of `storage_updates` with `storage_addresses` (on
`sa.id = su.storage_address_id`) and `contract_addresses` (on
`ca.id = su.contract_address_id`), filtered by
`contract_address = tokenBytes` (the `WHERE` clause's blob equality). -/
def joinedRows (sas cas : List (Nat × List Nat)) (tb : List Nat)
    (ups : List UpdateRow) : List JRow :=
  ups.flatMap (fun u =>
    (sas.filter (fun sa => decide (sa.1 = u.storage_address_id))).flatMap (fun sa =>
      (cas.filter (fun ca =>
          decide (ca.1 = u.contract_address_id ∧ ca.2 = tb))).map (fun ca =>
        ⟨u, sa.2, ca.2⟩)))

/-- All joined rows of `db` matching the token blob `tb`. -/
def DB.joined (db : DB) (tb : List Nat) : List JRow :=
  joinedRows db.storage_addresses db.contract_addresses tb db.storage_updates

/-- First-occurrence deduplication: the model of `GROUP BY` output order
(SQLite leaves this order unspecified; theorems sensitive to it carry
hypotheses making it irrelevant). -/
def dedupF {α : Type} [DecidableEq α] (l : List α) : List α :=
  l.foldl (fun acc k => if k ∈ acc then acc else acc ++ [k]) []

/-- SQLite's single-`MAX` aggregate with bare columns: the whole row of
the first scan-order occurrence of the maximal `block_number`. -/
def pickMax : List JRow → Option JRow
  | [] => none
  | r :: rest =>
    some (rest.foldl
      (fun best x => if best.upd.block_number < x.upd.block_number then x else best) r)

/-- One output row of the shard query: the `(String, String, String, i64)`
tuple the Rust code binds as
`(contract_address_hex, storage_address_hex, storage_value_hex, max_block_number)`. -/
structure ShardRow where
  contract_hex : String
  storage_hex : String
  value_hex : String
  max_block : Int
deriving DecidableEq

/-- The aggregated output row of one `GROUP BY` group. -/
def groupOut (rows : List JRow) (k : Nat × Nat) : Option ShardRow :=
  (pickMax (rows.filter (fun r => decide (jkey r = k)))).map (fun best =>
    ⟨hexOfBytes best.cbytes, hexOfBytes best.sbytes,
     hexOfBytes best.upd.storage_value, best.upd.block_number⟩)

/-- The rows returned by the shard query for `(tb, S, shard)`: joined rows
restricted by `(storage_addresses.id % S) = shard`, grouped by
`(contract_address_id, storage_address_id)`, one aggregated row per group. -/
def shardRows (db : DB) (tb : List Nat) (S shard : Nat) : List ShardRow :=
  let rows := (db.joined tb).filter
    (fun r => decide (r.upd.storage_address_id % S = shard))
  (dedupF (rows.map jkey)).filterMap (groupOut rows)

/-- Step 1 of `get_balance_map`: the slot→account table
`accounts.par_iter().map(|a| (pedersen_hash(&selector, a), *a)).collect()`.
Rayon's ordered collect makes later duplicates overwrite earlier ones. -/
def accounts_hash_map (ext : Externals) (accounts : List Nat) : List (Nat × Nat) :=
  accounts.foldl
    (fun m a => SMap.insert m (ext.pedersen ext.balancesSelector a) a) []

/-- Processing of one shard row in the per-token merge loop
(balance.rs lines 137–151): parse `"0x" ++ storage_hex`, skip the row on
parse failure; look the slot up in the account table, skip on a miss;
otherwise insert the parsed value (`ZERO` on parse failure) for the
account.  The row's `max_block` field is ignored, exactly as in the
source (`_max_block`). -/
def processRow (ext : Externals) (hm : List (Nat × Nat))
    (tb : List (Nat × Nat)) (r : ShardRow) : List (Nat × Nat) :=
  match ext.fromHex ("0x" ++ r.storage_hex) with
  | none => tb
  | some slotF =>
    match SMap.lookup hm slotF with
    | none => tb
    | some account => SMap.insert tb account ((ext.fromHex r.value_hex).getD 0)

/-- Whether a shard row survives both `continue`s of the merge loop. -/
def relRow (ext : Externals) (hm : List (Nat × Nat)) (r : ShardRow) : Bool :=
  match ext.fromHex ("0x" ++ r.storage_hex) with
  | none => false
  | some slotF => (SMap.lookup hm slotF).isSome

/-- Whether a shard row inserts specifically for the account `a`. -/
def effAcct (ext : Externals) (hm : List (Nat × Nat)) (a : Nat) (r : ShardRow) : Bool :=
  match ext.fromHex ("0x" ++ r.storage_hex) with
  | none => false
  | some slotF =>
    match SMap.lookup hm slotF with
    | none => false
    | some b => decide (b = a)

/-- The balance a surviving row inserts:
`Felt::from_hex(&storage_val).unwrap_or(Felt::ZERO)`. -/
def rowVal (ext : Externals) (r : ShardRow) : Nat :=
  (ext.fromHex r.value_hex).getD 0

/-- The fallible rusqlite call a shard fault models. -/
inductive Stage where
  | conn
  | prepStmt
  | query
  | collect
deriving DecidableEq

/-- The `map_err` prefix the source attaches at each stage. -/
def stageMsg : Stage → String
  | Stage.conn => "Failed to create database connection: "
  | Stage.prepStmt => "Failed to prepare SQL statement: "
  | Stage.query => "Failed to execute query: "
  | Stage.collect => "Failed to collect rows: "

/-- An injected environmental failure: the failing stage plus the
underlying rusqlite error text. -/
structure Fault where
  stage : Stage
  cause : String
deriving DecidableEq

/-- The error string the shard closure returns for a fault.  It is a
function of the stage and underlying cause only — the source's messages
contain no shard index. -/
def faultMsg (f : Fault) : String := stageMsg f.stage ++ f.cause

/-- Fault assignment failing exactly the shard `s` of token `t`. -/
def singleFault (t s : Nat) (f : Fault) : Nat → Nat → Option Fault :=
  fun t' s' => if t' = t ∧ s' = s then some f else none

/-- The error of a run, if it failed. -/
def runErr {α : Type} : Except String α → Option String
  | Except.error e => some e
  | Except.ok _ => none

/-- The merge loop `for shard_rows in shard_results { for … in shard_rows? }`:
shard results are consumed in shard-index order, rows of a failed shard
abort the token with that shard's error. -/
def mergeShards (ext : Externals) (hm : List (Nat × Nat)) :
    List (Nat × Nat) → List (Except String (List ShardRow)) →
    Except String (List (Nat × Nat))
  | tb, [] => Except.ok tb
  | _tb, Except.error e :: _ => Except.error e
  | tb, Except.ok rows :: rest =>
    mergeShards ext hm (rows.foldl (processRow ext hm) tb) rest

/-- The per-token shard results
`(0..shards_per_token).into_par_iter().map(…).collect()`, with injected
faults standing in for connection/prepare/query/collect failures. -/
def tokenShards (ext : Externals) (faults : Nat → Nat → Option Fault)
    (db : DB) (S t : Nat) : List (Except String (List ShardRow)) :=
  (List.range S).map (fun shard =>
    match faults t shard with
    | some f => Except.error (faultMsg f)
    | none => Except.ok (shardRows db (ext.tokenEnc t) S shard))

/-- Step 3 of `get_balance_map`: fold the per-token results into
`final_token_map`, aborting on the first token whose result is an error
(`token_result?`). -/
def collectTokens :
    List (Nat × List (Nat × Nat)) →
    List (Except String (Nat × List (Nat × Nat))) →
    Except String (List (Nat × List (Nat × Nat)))
  | m, [] => Except.ok m
  | _m, Except.error e :: _ => Except.error e
  | m, Except.ok (t, b) :: rest => collectTokens (SMap.insert m t b) rest

/-- `get_balance_map` with fault injection: build the slot→account table,
run every token's sharded scan-and-merge, fold the token results. -/
def get_balance_map_f (ext : Externals) (faults : Nat → Nat → Option Fault)
    (db : DB) (S : Nat) (addresses : Addresses) :
    Except String (List (Nat × List (Nat × Nat))) :=
  let hm := accounts_hash_map ext addresses.accounts
  collectTokens [] (addresses.tokens.map (fun token =>
    match mergeShards ext hm [] (tokenShards ext faults db S token) with
    | Except.error e => Except.error e
    | Except.ok tb => Except.ok (token, tb)))

/-- `get_balance_map` in a fault-free environment. -/
def get_balance_map (ext : Externals) (db : DB) (S : Nat)
    (addresses : Addresses) : Except String (List (Nat × List (Nat × Nat))) :=
  get_balance_map_f ext (fun _ _ => none) db S addresses

/-- The fault-free balance map of one token: all shard row lists, merged
in shard order. -/
def tokenBal (ext : Externals) (db : DB) (S : Nat) (hm : List (Nat × Nat))
    (t : Nat) : List (Nat × Nat) :=
  (((List.range S).map (fun s => shardRows db (ext.tokenEnc t) S s)).flatten).foldl
    (processRow ext hm) []

/-- Database/externals well-formedness used by the determinism and
latest-wins theorems:
1. `storage_addresses.id` is unique (`INTEGER PRIMARY KEY`);
2. `contract_addresses.id` is unique (`INTEGER PRIMARY KEY`);
3. two storage-address rows whose BLOBs parse to the same field element
   are the same row (in particular no slot BLOB is interned twice) — this
   is the interned-log discipline of the upstream schema;
4. a contract-address BLOB determines its id (interned contracts). -/
def DBWF (ext : Externals) (db : DB) : Prop :=
  (db.storage_addresses.map Prod.fst).Nodup ∧
  (db.contract_addresses.map Prod.fst).Nodup ∧
  (∀ p ∈ db.storage_addresses, ∀ q ∈ db.storage_addresses,
    (ext.fromHex ("0x" ++ hexOfBytes p.2)).isSome →
    ext.fromHex ("0x" ++ hexOfBytes p.2) = ext.fromHex ("0x" ++ hexOfBytes q.2) →
    p = q) ∧
  (∀ p ∈ db.contract_addresses, ∀ q ∈ db.contract_addresses,
    p.2 = q.2 → p.1 = q.1)

/-- The last element of `l` satisfying `p`, if any: the value a sequence
of overwriting inserts leaves behind. -/
def lastMatch {α : Type} (p : α → Bool) : List α → Option α
  | [] => none
  | a :: rest =>
    match lastMatch p rest with
    | some b => some b
    | none => if p a then some a else none

/-- Strict key-sortedness: the representation invariant of `SMap`. -/
def SMapSorted {α : Type} (m : List (Nat × α)) : Prop :=
  List.Pairwise (fun p q => p.1 < q.1) m

/-- Concrete externals used by witnesses and counterexamples: an injective
hash stand-in, the executable hex parser, and a one-byte token encoding. -/
def extW : Externals :=
  { pedersen := fun _ a => a + 1
    balancesSelector := 0
    fromHex := mkFromHex
    tokenEnc := fun t => [t] }

/-- A well-interned log: one contract (id 1, blob `[7]`), one storage slot
(id 1, blob `[10]`), written at block 100 (value 1000) and block 200
(value 2000). -/
def dbW : DB :=
  { contract_addresses := [(1, [7])]
    storage_addresses := [(1, [10])]
    storage_updates :=
      [ { contract_address_id := 1, storage_address_id := 1
          storage_value := [3, 232], block_number := 100 }
      , { contract_address_id := 1, storage_address_id := 1
          storage_value := [7, 208], block_number := 200 } ] }

/-- The same log as `dbW` except that the slot blob `[10]` is interned
twice (ids 1 and 2) and the two writes reference the two different ids —
the schema allows this (`storage_address` carries no UNIQUE constraint). -/
def dbDup : DB :=
  { contract_addresses := [(1, [7])]
    storage_addresses := [(1, [10]), (2, [10])]
    storage_updates :=
      [ { contract_address_id := 1, storage_address_id := 1
          storage_value := [3, 232], block_number := 100 }
      , { contract_address_id := 1, storage_address_id := 2
          storage_value := [7, 208], block_number := 200 } ] }

/-- A log where the slot's block-100 value is an empty BLOB (its hex
string parses to no field element) and its block-200 value is `[5]`. -/
def dbC6 : DB :=
  { contract_addresses := [(1, [7])]
    storage_addresses := [(1, [10])]
    storage_updates :=
      [ { contract_address_id := 1, storage_address_id := 1
          storage_value := [], block_number := 100 }
      , { contract_address_id := 1, storage_address_id := 1
          storage_value := [5], block_number := 200 } ] }

/-- Requested inputs for the concrete runs: account 9 (whose `extW` slot
hash is 10, the interned slot blob `[10]` parsed) and token 7. -/
def addrsW : Addresses := { accounts := [9], tokens := [7] }

/-- A concrete environmental failure for the fault-injection runs. -/
def fW : Fault := { stage := Stage.query, cause := "disk I/O error" }

/-- A log whose only write for the slot is an empty value BLOB at block
100: the value hex string parses to no field element. -/
def dbC6w : DB :=
  { contract_addresses := [(1, [7])]
    storage_addresses := [(1, [10])]
    storage_updates :=
      [ { contract_address_id := 1, storage_address_id := 1
          storage_value := [], block_number := 100 } ] }

/-- A log holding one write to the matching slot `[10]` and one write to
the slot `[11]`, which no requested account's derived slot matches. -/
def dbC5 : DB :=
  { contract_addresses := [(1, [7])]
    storage_addresses := [(1, [10]), (2, [11])]
    storage_updates :=
      [ { contract_address_id := 1, storage_address_id := 1
          storage_value := [3, 232], block_number := 100 }
      , { contract_address_id := 1, storage_address_id := 2
          storage_value := [5], block_number := 100 } ] }

/-- `DBWF` is decidable, so witnesses can discharge it by `decide`. -/
instance (ext : Externals) (db : DB) : Decidable (DBWF ext db) := by
  unfold DBWF
  exact inferInstance

theorem SMap.lookup_insert_self {α : Type} (m : List (Nat × α)) (k : Nat) (v : α) :
    SMap.lookup (SMap.insert m k v) k = some v := by
  induction m with
  | nil => simp [SMap.insert, SMap.lookup]
  | cons p rest ih =>
    obtain ⟨k', v'⟩ := p
    by_cases h1 : k < k'
    · simp [SMap.insert, h1, SMap.lookup]
    · by_cases h2 : k = k'
      · simp [SMap.insert, h1, h2, SMap.lookup]
      · simp [SMap.insert, h1, h2, SMap.lookup, ih]

theorem SMap.lookup_insert_ne {α : Type} (m : List (Nat × α)) (k k' : Nat) (v : α)
    (h : k' ≠ k) : SMap.lookup (SMap.insert m k v) k' = SMap.lookup m k' := by
  induction m with
  | nil => simp [SMap.insert, SMap.lookup, h]
  | cons p rest ih =>
    obtain ⟨k0, v0⟩ := p
    by_cases h1 : k < k0
    · simp [SMap.insert, h1, SMap.lookup, h]
    · by_cases h2 : k = k0
      · subst h2
        simp [SMap.insert, h1, SMap.lookup, h]
      · by_cases h3 : k' = k0
        · simp [SMap.insert, h1, h2, SMap.lookup, h3]
        · simp [SMap.insert, h1, h2, SMap.lookup, h3, ih]

theorem SMap.insert_comm {α : Type} (m : List (Nat × α)) (k1 k2 : Nat) (v1 v2 : α)
    (h : k1 ≠ k2) :
    SMap.insert (SMap.insert m k1 v1) k2 v2 = SMap.insert (SMap.insert m k2 v2) k1 v1 := by
  induction m with
  | nil =>
    simp only [SMap.insert]
    split_ifs <;> first | rfl | omega
  | cons p rest ih =>
    obtain ⟨k0, v0⟩ := p
    simp only [SMap.insert]
    split_ifs <;> (try simp only [SMap.insert]) <;> (try split_ifs) <;>
      first | rfl | omega | rw [ih]

theorem SMap.mem_insert {α : Type} (m : List (Nat × α)) (k : Nat) (v : α) (x : Nat × α)
    (hx : x ∈ SMap.insert m k v) : x = (k, v) ∨ x ∈ m := by
  induction m with
  | nil =>
    simp only [SMap.insert, List.mem_singleton] at hx
    exact Or.inl hx
  | cons p rest ih =>
    obtain ⟨k0, v0⟩ := p
    simp only [SMap.insert] at hx
    split_ifs at hx with h1 h2
    · rcases List.mem_cons.mp hx with h | hmem
      · exact Or.inl h
      · exact Or.inr hmem
    · rcases List.mem_cons.mp hx with h | hmem
      · exact Or.inl h
      · exact Or.inr (List.mem_cons_of_mem _ hmem)
    · rcases List.mem_cons.mp hx with h | hmem
      · exact Or.inr (by simp [h])
      · rcases ih hmem with h | h
        · exact Or.inl h
        · exact Or.inr (List.mem_cons_of_mem _ h)

theorem SMap.lookup_mem {α : Type} (m : List (Nat × α)) (k : Nat) (v : α)
    (h : SMap.lookup m k = some v) : (k, v) ∈ m := by
  induction m with
  | nil => simp [SMap.lookup] at h
  | cons p rest ih =>
    obtain ⟨k0, v0⟩ := p
    simp only [SMap.lookup] at h
    split_ifs at h with h1
    · have hv := Option.some.inj h
      subst h1
      subst hv
      exact List.mem_cons_self _ _
    · exact List.mem_cons_of_mem _ (ih h)

theorem SMap.lookup_isSome_iff {α : Type} (m : List (Nat × α)) (k : Nat) :
    (SMap.lookup m k).isSome ↔ k ∈ m.map Prod.fst := by
  induction m with
  | nil => simp [SMap.lookup]
  | cons p rest ih =>
    obtain ⟨k0, v0⟩ := p
    by_cases h1 : k = k0
    · subst h1
      simp [SMap.lookup]
    · simp [SMap.lookup, h1, ih]

theorem SMap.sorted_insert {α : Type} (m : List (Nat × α)) (k : Nat) (v : α)
    (h : SMapSorted m) : SMapSorted (SMap.insert m k v) := by
  induction m with
  | nil => simp [SMap.insert, SMapSorted]
  | cons p rest ih =>
    obtain ⟨k0, v0⟩ := p
    rcases List.pairwise_cons.mp h with ⟨hall, hrest⟩
    by_cases h1 : k < k0
    · simp only [SMapSorted, SMap.insert, if_pos h1]
      refine List.pairwise_cons.mpr ⟨?_, h⟩
      intro y hy
      rcases List.mem_cons.mp hy with hy | hy
      · simpa [hy] using h1
      · exact Nat.lt_trans h1 (hall y hy)
    · by_cases h2 : k = k0
      · subst h2
        simp only [SMapSorted, SMap.insert, if_neg h1, if_pos rfl]
        exact List.pairwise_cons.mpr ⟨hall, hrest⟩
      · simp only [SMapSorted, SMap.insert, if_neg h1, if_neg h2]
        refine List.pairwise_cons.mpr ⟨?_, ih hrest⟩
        intro y hy
        rcases SMap.mem_insert rest k v y hy with hy | hy
        · subst hy
          omega
        · exact hall y hy

theorem SMap.sorted_keys_nodup {α : Type} (m : List (Nat × α))
    (h : SMapSorted m) : (m.map Prod.fst).Nodup := by
  have : List.Pairwise (fun a b : Nat => a ≠ b) (m.map Prod.fst) :=
    List.Pairwise.map Prod.fst (fun a b hab => Nat.ne_of_lt hab) h
  exact this

theorem SMap.length_insert {α : Type} (m : List (Nat × α)) (k : Nat) (v : α)
    (h : SMapSorted m) :
    (SMap.insert m k v).length =
      if k ∈ m.map Prod.fst then m.length else m.length + 1 := by
  induction m with
  | nil => simp [SMap.insert]
  | cons p rest ih =>
    obtain ⟨k0, v0⟩ := p
    rcases List.pairwise_cons.mp h with ⟨hall, hrest⟩
    by_cases h1 : k < k0
    · have hk : k ∉ k0 :: rest.map Prod.fst := by
        intro hmem
        rcases List.mem_cons.mp hmem with hmem | hmem
        · omega
        · rcases List.mem_map.mp hmem with ⟨y, hy, hyk⟩
          have := hall y hy
          omega
      simp [SMap.insert, h1, hk]
    · by_cases h2 : k = k0
      · subst h2
        simp [SMap.insert, h1]
      · have hk : (k ∈ (((k0, v0) :: rest).map Prod.fst)) ↔ (k ∈ rest.map Prod.fst) := by
          simp [h2]
        simp only [SMap.insert, if_neg h1, if_neg h2, List.length_cons, ih hrest, hk]
        by_cases h3 : k ∈ rest.map Prod.fst <;> simp [h3]

theorem SMap.sorted_fold_insert {α : Type} (f : Nat → α) (l : List Nat)
    (m : List (Nat × α)) (h : SMapSorted m) :
    SMapSorted (l.foldl (fun acc t => SMap.insert acc t (f t)) m) := by
  induction l generalizing m with
  | nil => exact h
  | cons t rest ih => exact ih _ (SMap.sorted_insert m t (f t) h)

theorem dedupF_aux_mem {α : Type} [DecidableEq α] (l acc : List α) (x : α) :
    x ∈ l.foldl (fun acc k => if k ∈ acc then acc else acc ++ [k]) acc ↔
      x ∈ acc ∨ x ∈ l := by
  induction l generalizing acc with
  | nil => simp
  | cons y ys ih =>
    simp only [List.foldl_cons]
    by_cases hy : y ∈ acc
    · rw [if_pos hy, ih]
      constructor
      · rintro (h | h)
        · exact Or.inl h
        · exact Or.inr (List.mem_cons_of_mem _ h)
      · rintro (h | h)
        · exact Or.inl h
        · rcases List.mem_cons.mp h with h | h
          · exact Or.inl (h ▸ hy)
          · exact Or.inr h
    · rw [if_neg hy, ih]
      simp only [List.mem_append, List.mem_singleton, List.mem_cons]
      tauto

theorem dedupF_aux_nodup {α : Type} [DecidableEq α] (l acc : List α)
    (h : acc.Nodup) :
    (l.foldl (fun acc k => if k ∈ acc then acc else acc ++ [k]) acc).Nodup := by
  induction l generalizing acc with
  | nil => exact h
  | cons y ys ih =>
    simp only [List.foldl_cons]
    by_cases hy : y ∈ acc
    · rw [if_pos hy]
      exact ih _ h
    · rw [if_neg hy]
      refine ih _ ?_
      simpa [List.nodup_append, h] using hy

theorem dedupF_aux_filter {α : Type} [DecidableEq α] (p : α → Bool) (l acc : List α) :
    (l.filter p).foldl (fun acc k => if k ∈ acc then acc else acc ++ [k]) (acc.filter p) =
      (l.foldl (fun acc k => if k ∈ acc then acc else acc ++ [k]) acc).filter p := by
  induction l generalizing acc with
  | nil => simp
  | cons y ys ih =>
    by_cases hp : p y
    · have hfc : (y :: ys).filter p = y :: ys.filter p := by simp [List.filter_cons, hp]
      rw [hfc, List.foldl_cons, List.foldl_cons]
      by_cases hy : y ∈ acc
      · have hy' : y ∈ acc.filter p := List.mem_filter.mpr ⟨hy, hp⟩
        rw [if_pos hy, if_pos hy', ih]
      · have hy' : y ∉ acc.filter p := fun hc => hy (List.mem_filter.mp hc).1
        rw [if_neg hy, if_neg hy']
        have hap : (acc ++ [y]).filter p = acc.filter p ++ [y] := by
          simp [List.filter_append, hp]
        rw [← hap, ih]
    · have hp' : p y = false := by simpa using hp
      have hfc : (y :: ys).filter p = ys.filter p := by simp [List.filter_cons, hp']
      rw [hfc, List.foldl_cons]
      by_cases hy : y ∈ acc
      · rw [if_pos hy, ih]
      · rw [if_neg hy]
        have hap : (acc ++ [y]).filter p = acc.filter p := by
          simp [List.filter_append, hp']
        rw [← hap, ih]

theorem mem_dedupF {α : Type} [DecidableEq α] (l : List α) (x : α) :
    x ∈ dedupF l ↔ x ∈ l := by
  unfold dedupF
  rw [dedupF_aux_mem]
  simp

theorem nodup_dedupF {α : Type} [DecidableEq α] (l : List α) : (dedupF l).Nodup :=
  dedupF_aux_nodup l [] List.nodup_nil

theorem dedupF_filter {α : Type} [DecidableEq α] (p : α → Bool) (l : List α) :
    dedupF (l.filter p) = (dedupF l).filter p := by
  unfold dedupF
  have := dedupF_aux_filter p l []
  simpa using this

theorem map_filter_comm {α β : Type} (f : α → β) (p : β → Bool) (l : List α) :
    (l.filter (fun a => p (f a))).map f = (l.map f).filter p := by
  induction l with
  | nil => rfl
  | cons x xs ih =>
    by_cases hp : p (f x)
    · simp [List.filter_cons, hp, ih]
    · have hp' : p (f x) = false := by simpa using hp
      simp [List.filter_cons, hp', ih]

theorem sum_ite_range_ge (x c S : Nat) (h : S ≤ x) :
    ((List.range S).map (fun s => if x = s then c else 0)).sum = 0 := by
  induction S with
  | zero => simp
  | succ n ih =>
    rw [List.range_succ, List.map_append, List.sum_append]
    have hx : x ≠ n := by omega
    simp [hx, ih (by omega)]

theorem sum_ite_range (x c S : Nat) (h : x < S) :
    ((List.range S).map (fun s => if x = s then c else 0)).sum = c := by
  induction S with
  | zero => omega
  | succ n ih =>
    rw [List.range_succ, List.map_append, List.sum_append]
    by_cases hx : x = n
    · subst hx
      simp [sum_ite_range_ge x c x (Nat.le_refl x)]
    · have hxn : x < n := by omega
      simp [hx, ih hxn]

theorem bucket_perm {α : Type} [DecidableEq α] (S : Nat) (hS : 1 ≤ S)
    (keyf : α → Nat) (l : List α) :
    (((List.range S).map (fun s =>
        l.filter (fun x => decide (keyf x % S = s)))).flatten).Perm l := by
  rw [List.perm_iff_count]
  intro a
  rw [List.count_flatten, List.map_map]
  have hmap : ((List.range S).map
      (List.count a ∘ fun s => l.filter (fun x => decide (keyf x % S = s)))) =
      (List.range S).map (fun s => if keyf a % S = s then List.count a l else 0) := by
    apply List.map_congr_left
    intro s _hs
    simp only [Function.comp_apply]
    by_cases ha : keyf a % S = s
    · rw [if_pos ha]
      exact List.count_filter (by simp [ha])
    · rw [if_neg ha]
      rw [List.count_eq_zero]
      intro hc
      rcases List.mem_filter.mp hc with ⟨_, hpa⟩
      exact ha (by simpa using hpa)
  rw [hmap, sum_ite_range _ _ _ (Nat.mod_lt _ (by omega))]

theorem pickMax_aux_mem (rest : List JRow) (a : JRow) :
    rest.foldl (fun best x =>
      if best.upd.block_number < x.upd.block_number then x else best) a ∈ a :: rest := by
  induction rest generalizing a with
  | nil => exact List.mem_singleton.mpr rfl
  | cons y ys ih =>
    simp only [List.foldl_cons]
    rcases List.mem_cons.mp
        (ih (if a.upd.block_number < y.upd.block_number then y else a)) with h | h
    · rw [h]
      by_cases hc : a.upd.block_number < y.upd.block_number
      · rw [if_pos hc]
        exact List.mem_cons_of_mem _ (List.mem_cons_self _ _)
      · rw [if_neg hc]
        exact List.mem_cons_self _ _
    · exact List.mem_cons_of_mem _ (List.mem_cons_of_mem _ h)

theorem pickMax_aux_max (rest : List JRow) (a : JRow) :
    a.upd.block_number ≤ (rest.foldl (fun best x =>
      if best.upd.block_number < x.upd.block_number then x else best) a).upd.block_number ∧
    ∀ x ∈ rest, x.upd.block_number ≤ (rest.foldl (fun best x =>
      if best.upd.block_number < x.upd.block_number then x else best) a).upd.block_number := by
  induction rest generalizing a with
  | nil => exact ⟨Int.le_refl _, by simp⟩
  | cons y ys ih =>
    simp only [List.foldl_cons]
    have h := ih (if a.upd.block_number < y.upd.block_number then y else a)
    have hstep :
        a.upd.block_number ≤
          (if a.upd.block_number < y.upd.block_number then y else a).upd.block_number ∧
        y.upd.block_number ≤
          (if a.upd.block_number < y.upd.block_number then y else a).upd.block_number := by
      by_cases hc : a.upd.block_number < y.upd.block_number
      · rw [if_pos hc]
        omega
      · rw [if_neg hc]
        omega
    refine ⟨Int.le_trans hstep.1 h.1, ?_⟩
    intro x hx
    rcases List.mem_cons.mp hx with hx | hx
    · subst hx
      exact Int.le_trans hstep.2 h.1
    · exact h.2 x hx

theorem pickMax_mem (l : List JRow) (r : JRow) (h : pickMax l = some r) : r ∈ l := by
  cases l with
  | nil => simp [pickMax] at h
  | cons a rest =>
    simp only [pickMax, Option.some.injEq] at h
    exact h ▸ pickMax_aux_mem rest a

theorem pickMax_max (l : List JRow) (r : JRow) (h : pickMax l = some r) :
    ∀ x ∈ l, x.upd.block_number ≤ r.upd.block_number := by
  cases l with
  | nil => simp
  | cons a rest =>
    simp only [pickMax, Option.some.injEq] at h
    intro x hx
    rcases List.mem_cons.mp hx with hx | hx
    · subst hx
      exact h ▸ (pickMax_aux_max rest x).1
    · exact h ▸ (pickMax_aux_max rest a).2 x hx

theorem pickMax_unique (l : List JRow) (r' : JRow) (hr : r' ∈ l)
    (hstrict : ∀ x ∈ l, x ≠ r' → x.upd.block_number < r'.upd.block_number) :
    pickMax l = some r' := by
  cases hl : l with
  | nil =>
    subst hl
    simp at hr
  | cons a rest =>
    subst hl
    obtain ⟨p, hp⟩ : ∃ p, pickMax (a :: rest) = some p := ⟨_, rfl⟩
    have hpm := pickMax_mem _ _ hp
    have hmax := pickMax_max _ _ hp
    by_cases hpe : p = r'
    · exact hpe ▸ hp
    · have h1 := hstrict p hpm hpe
      have h2 := hmax r' hr
      omega

theorem processRow_not_rel (ext : Externals) (hm tb : List (Nat × Nat)) (r : ShardRow)
    (h : relRow ext hm r = false) : processRow ext hm tb r = tb := by
  cases hfh : ext.fromHex ("0x" ++ r.storage_hex) with
  | none => simp [processRow, hfh]
  | some slotF =>
    simp only [relRow, hfh] at h
    cases hlk : SMap.lookup hm slotF with
    | none => simp [processRow, hfh, hlk]
    | some account =>
      rw [hlk] at h
      simp at h

theorem processRow_eff (ext : Externals) (hm tb : List (Nat × Nat)) (r : ShardRow)
    (a : Nat) (h : effAcct ext hm a r = true) :
    processRow ext hm tb r = SMap.insert tb a (rowVal ext r) := by
  cases hfh : ext.fromHex ("0x" ++ r.storage_hex) with
  | none =>
    simp only [effAcct, hfh] at h
    simp at h
  | some slotF =>
    simp only [effAcct, hfh] at h
    cases hlk : SMap.lookup hm slotF with
    | none =>
      rw [hlk] at h
      simp at h
    | some b =>
      rw [hlk] at h
      have hb : b = a := by simpa using h
      subst hb
      simp [processRow, rowVal, hfh, hlk]

theorem processRow_not_eff (ext : Externals) (hm tb : List (Nat × Nat)) (r : ShardRow)
    (a : Nat) (h : effAcct ext hm a r = false) :
    SMap.lookup (processRow ext hm tb r) a = SMap.lookup tb a := by
  cases hfh : ext.fromHex ("0x" ++ r.storage_hex) with
  | none => simp [processRow, hfh]
  | some slotF =>
    simp only [effAcct, hfh] at h
    cases hlk : SMap.lookup hm slotF with
    | none => simp [processRow, hfh, hlk]
    | some b =>
      rw [hlk] at h
      have hb : b ≠ a := by simpa using h
      simp only [processRow, hfh, hlk]
      exact SMap.lookup_insert_ne tb b a _ (Ne.symm hb)

theorem relRow_of_effAcct (ext : Externals) (hm : List (Nat × Nat)) (a : Nat)
    (r : ShardRow) (h : effAcct ext hm a r = true) : relRow ext hm r = true := by
  cases hfh : ext.fromHex ("0x" ++ r.storage_hex) with
  | none =>
    simp only [effAcct, hfh] at h
    simp at h
  | some slotF =>
    simp only [effAcct, hfh] at h
    simp only [relRow, hfh]
    cases hlk : SMap.lookup hm slotF with
    | none =>
      rw [hlk] at h
      simp at h
    | some b => simp [hlk]

theorem effAcct_self (ext : Externals) (hm : List (Nat × Nat)) (r : ShardRow)
    (slotF b : Nat) (hfh : ext.fromHex ("0x" ++ r.storage_hex) = some slotF)
    (hlk : SMap.lookup hm slotF = some b) : effAcct ext hm b r = true := by
  simp [effAcct, hfh, hlk]

theorem processRow_comm (ext : Externals) (hm : List (Nat × Nat)) (x y : ShardRow)
    (h : x = y ∨ ∀ a, ¬(effAcct ext hm a x = true ∧ effAcct ext hm a y = true)) :
    ∀ z, processRow ext hm (processRow ext hm z x) y =
      processRow ext hm (processRow ext hm z y) x := by
  intro z
  rcases h with h | h
  · subst h
    rfl
  · cases hfx : ext.fromHex ("0x" ++ x.storage_hex) with
    | none =>
      have hx : relRow ext hm x = false := by simp [relRow, hfx]
      rw [processRow_not_rel ext hm z x hx, processRow_not_rel ext hm _ x hx]
    | some fx =>
      cases hax : SMap.lookup hm fx with
      | none =>
        have hx : relRow ext hm x = false := by simp [relRow, hfx, hax]
        rw [processRow_not_rel ext hm z x hx, processRow_not_rel ext hm _ x hx]
      | some ax =>
        cases hfy : ext.fromHex ("0x" ++ y.storage_hex) with
        | none =>
          have hy : relRow ext hm y = false := by simp [relRow, hfy]
          rw [processRow_not_rel ext hm _ y hy, processRow_not_rel ext hm z y hy]
        | some fy =>
          cases hay : SMap.lookup hm fy with
          | none =>
            have hy : relRow ext hm y = false := by simp [relRow, hfy, hay]
            rw [processRow_not_rel ext hm _ y hy, processRow_not_rel ext hm z y hy]
          | some ay =>
            have hxa := effAcct_self ext hm x fx ax hfx hax
            have hya := effAcct_self ext hm y fy ay hfy hay
            have hne : ax ≠ ay := fun hcon => h ax ⟨hxa, hcon ▸ hya⟩
            simp only [processRow, hfx, hfy, hax, hay]
            exact SMap.insert_comm z ax ay _ _ hne

theorem foldl_processRow_skip (ext : Externals) (hm : List (Nat × Nat))
    (rows : List ShardRow) (m : List (Nat × Nat)) :
    rows.foldl (processRow ext hm) m =
      (rows.filter (relRow ext hm)).foldl (processRow ext hm) m := by
  induction rows generalizing m with
  | nil => rfl
  | cons r rest ih =>
    by_cases hr : relRow ext hm r = true
    · have hfc : (r :: rest).filter (relRow ext hm) =
          r :: rest.filter (relRow ext hm) := by simp [List.filter_cons, hr]
      rw [hfc, List.foldl_cons, List.foldl_cons, ih]
    · have hr' : relRow ext hm r = false := by simpa using hr
      have hfc : (r :: rest).filter (relRow ext hm) =
          rest.filter (relRow ext hm) := by simp [List.filter_cons, hr']
      rw [hfc, List.foldl_cons, processRow_not_rel ext hm m r hr', ih]

theorem foldl_processRow_lookup_of_not_eff (ext : Externals) (hm : List (Nat × Nat))
    (rows : List ShardRow) (m : List (Nat × Nat)) (a : Nat)
    (h : ∀ x ∈ rows, effAcct ext hm a x = false) :
    SMap.lookup (rows.foldl (processRow ext hm) m) a = SMap.lookup m a := by
  induction rows generalizing m with
  | nil => rfl
  | cons r rest ih =>
    rw [List.foldl_cons, ih _ (fun x hx => h x (List.mem_cons_of_mem _ hx))]
    exact processRow_not_eff ext hm m r a (h r (List.mem_cons_self _ _))

theorem foldl_processRow_lookup_unique (ext : Externals) (hm : List (Nat × Nat))
    (rows : List ShardRow) (m : List (Nat × Nat)) (a : Nat) (r' : ShardRow)
    (hmem : r' ∈ rows)
    (huniq : ∀ x ∈ rows, effAcct ext hm a x = true → x = r')
    (heff : effAcct ext hm a r' = true) :
    SMap.lookup (rows.foldl (processRow ext hm) m) a = some (rowVal ext r') := by
  induction rows generalizing m with
  | nil => simp at hmem
  | cons r rest ih =>
    rw [List.foldl_cons]
    by_cases hr : r' ∈ rest
    · exact ih _ hr (fun x hx => huniq x (List.mem_cons_of_mem _ hx))
    · have hrr : r = r' := by
        rcases List.mem_cons.mp hmem with h | h
        · exact h.symm
        · exact absurd h hr
      subst hrr
      have hrest : ∀ x ∈ rest, effAcct ext hm a x = false := by
        intro x hx
        by_cases he : effAcct ext hm a x = true
        · exact absurd (huniq x (List.mem_cons_of_mem _ hx) he ▸ hx) hr
        · simpa using he
      rw [foldl_processRow_lookup_of_not_eff ext hm rest _ a hrest,
        processRow_eff ext hm m r a heff, SMap.lookup_insert_self]

theorem mergeShards_ok (ext : Externals) (hm : List (Nat × Nat))
    (ls : List (List ShardRow)) (tb : List (Nat × Nat)) :
    mergeShards ext hm tb (ls.map Except.ok) =
      Except.ok (ls.flatten.foldl (processRow ext hm) tb) := by
  induction ls generalizing tb with
  | nil => rfl
  | cons rows rest ih =>
    rw [List.map_cons, List.flatten_cons, List.foldl_append]
    exact ih _

theorem mergeShards_error (ext : Externals) (hm : List (Nat × Nat))
    (ls : List (List ShardRow)) (e : String)
    (rest : List (Except String (List ShardRow))) (tb : List (Nat × Nat)) :
    mergeShards ext hm tb (ls.map Except.ok ++ Except.error e :: rest) =
      Except.error e := by
  induction ls generalizing tb with
  | nil => rfl
  | cons rows more ih => exact ih _

theorem mergeShards_has_error (ext : Externals) (hm : List (Nat × Nat))
    (xs : List (Except String (List ShardRow))) (tb : List (Nat × Nat)) (e : String)
    (h : Except.error e ∈ xs) :
    ∃ e', mergeShards ext hm tb xs = Except.error e' := by
  induction xs generalizing tb with
  | nil => simp at h
  | cons x rest ih =>
    cases x with
    | error e0 => exact ⟨e0, rfl⟩
    | ok rows =>
      have h' : Except.error e ∈ rest := by
        rcases List.mem_cons.mp h with h | h
        · exact absurd h (by simp)
        · exact h
      exact ih _ h'

theorem collectTokens_ok (results : List (Nat × List (Nat × Nat)))
    (m : List (Nat × List (Nat × Nat))) :
    collectTokens m (results.map Except.ok) =
      Except.ok (results.foldl (fun acc p => SMap.insert acc p.1 p.2) m) := by
  induction results generalizing m with
  | nil => rfl
  | cons p rest ih =>
    obtain ⟨t, b⟩ := p
    exact ih _

theorem collectTokens_has_error (xs : List (Except String (Nat × List (Nat × Nat))))
    (m : List (Nat × List (Nat × Nat))) (e : String) (h : Except.error e ∈ xs) :
    ∃ e', collectTokens m xs = Except.error e' := by
  induction xs generalizing m with
  | nil => simp at h
  | cons x rest ih =>
    cases x with
    | error e0 => exact ⟨e0, rfl⟩
    | ok p =>
      obtain ⟨t, b⟩ := p
      have h' : Except.error e ∈ rest := by
        rcases List.mem_cons.mp h with h | h
        · exact absurd h (by simp)
        · exact h
      exact ih _ h'

theorem tokenShards_no_fault (ext : Externals) (db : DB) (S t : Nat) :
    tokenShards ext (fun _ _ => none) db S t =
      (List.range S).map (fun s => Except.ok (shardRows db (ext.tokenEnc t) S s)) := by
  unfold tokenShards
  rfl

theorem get_balance_map_ok (ext : Externals) (db : DB) (S : Nat) (ad : Addresses) :
    get_balance_map ext db S ad =
      Except.ok (ad.tokens.foldl (fun acc t =>
        SMap.insert acc t (tokenBal ext db S (accounts_hash_map ext ad.accounts) t)) []) := by
  simp only [get_balance_map, get_balance_map_f]
  have hmap : ad.tokens.map (fun token =>
      match mergeShards ext (accounts_hash_map ext ad.accounts) []
        (tokenShards ext (fun _ _ => none) db S token) with
      | Except.error e => Except.error e
      | Except.ok tb => Except.ok (token, tb)) =
      (ad.tokens.map (fun token =>
        (token, tokenBal ext db S (accounts_hash_map ext ad.accounts) token))).map
          Except.ok := by
    rw [List.map_map]
    apply List.map_congr_left
    intro t _ht
    simp only [Function.comp_apply]
    rw [tokenShards_no_fault]
    have hcomp : ((List.range S).map
          (fun s => shardRows db (ext.tokenEnc t) S s)).map
            (Except.ok : List ShardRow → Except String (List ShardRow)) =
        (List.range S).map (fun s =>
          (Except.ok (shardRows db (ext.tokenEnc t) S s) :
            Except String (List ShardRow))) := by
      rw [List.map_map]
      rfl
    rw [← hcomp, mergeShards_ok]
    rfl
  rw [hmap, collectTokens_ok, List.foldl_map]

theorem foldl_insert_lookup {α : Type} (f : Nat → α) (l : List Nat)
    (m : List (Nat × α)) (k : Nat) :
    SMap.lookup (l.foldl (fun acc t => SMap.insert acc t (f t)) m) k =
      if k ∈ l then some (f k) else SMap.lookup m k := by
  induction l generalizing m with
  | nil => simp
  | cons t rest ih =>
    rw [List.foldl_cons, ih]
    by_cases hk : k ∈ rest
    · simp [hk]
    · by_cases hkt : k = t
      · subst hkt
        simp [hk, SMap.lookup_insert_self]
      · simp [hk, hkt, SMap.lookup_insert_ne m t k (f t) hkt]

theorem accounts_hash_map_mem (ext : Externals) (accounts : List Nat)
    (k a : Nat) (h : (k, a) ∈ accounts_hash_map ext accounts) :
    k = ext.pedersen ext.balancesSelector a ∧ a ∈ accounts := by
  unfold accounts_hash_map at h
  suffices haux : ∀ (l : List Nat) (m : List (Nat × Nat)),
      (k, a) ∈ l.foldl (fun m a => SMap.insert m (ext.pedersen ext.balancesSelector a) a) m →
      ((k, a) ∈ m ∨ (k = ext.pedersen ext.balancesSelector a ∧ a ∈ l)) by
    rcases haux accounts [] h with hc | hc
    · simp at hc
    · exact hc
  intro l
  induction l with
  | nil =>
    intro m hm
    exact Or.inl hm
  | cons b rest ih =>
    intro m hm
    rcases ih _ hm with hc | hc
    · rcases SMap.mem_insert m (ext.pedersen ext.balancesSelector b) b _ hc with hc' | hc'
      · have h1 : k = ext.pedersen ext.balancesSelector b ∧ a = b := by
          constructor
          · exact congrArg Prod.fst hc'
          · exact congrArg Prod.snd hc'
        exact Or.inr ⟨h1.2 ▸ h1.1, by simp [h1.2]⟩
      · exact Or.inl hc'
    · exact Or.inr ⟨hc.1, List.mem_cons_of_mem _ hc.2⟩

theorem accounts_hash_map_lookup (ext : Externals) (accounts : List Nat) (k : Nat) :
    SMap.lookup (accounts_hash_map ext accounts) k =
      lastMatch (fun b => decide (ext.pedersen ext.balancesSelector b = k)) accounts := by
  unfold accounts_hash_map
  suffices haux : ∀ (l : List Nat) (m : List (Nat × Nat)),
      SMap.lookup (l.foldl
        (fun m a => SMap.insert m (ext.pedersen ext.balancesSelector a) a) m) k =
      (match lastMatch (fun b => decide (ext.pedersen ext.balancesSelector b = k)) l with
        | some b => some b
        | none => SMap.lookup m k) by
    rw [haux accounts []]
    cases lastMatch (fun b => decide (ext.pedersen ext.balancesSelector b = k)) accounts with
    | none => simp [SMap.lookup]
    | some b => rfl
  intro l
  induction l with
  | nil =>
    intro m
    rfl
  | cons b rest ih =>
    intro m
    rw [List.foldl_cons, ih]
    cases hlm : lastMatch (fun b => decide (ext.pedersen ext.balancesSelector b = k)) rest with
    | some c => simp [lastMatch, hlm]
    | none =>
      simp only [lastMatch, hlm]
      by_cases hb : ext.pedersen ext.balancesSelector b = k
      · subst hb
        simp [SMap.lookup_insert_self]
      · simp [hb, SMap.lookup_insert_ne m _ k b (fun hc => hb hc.symm)]

theorem accounts_hash_map_length (ext : Externals) (accounts : List Nat) :
    (accounts_hash_map ext accounts).length ≤ accounts.length := by
  unfold accounts_hash_map
  suffices haux : ∀ (l : List Nat) (m : List (Nat × Nat)), SMapSorted m →
      (l.foldl (fun m a => SMap.insert m (ext.pedersen ext.balancesSelector a) a) m).length ≤
        m.length + l.length by
    simpa using haux accounts [] List.Pairwise.nil
  intro l
  induction l with
  | nil =>
    intro m _hs
    simp
  | cons b rest ih =>
    intro m hs
    rw [List.foldl_cons]
    have h1 := ih (SMap.insert m (ext.pedersen ext.balancesSelector b) b)
      (SMap.sorted_insert m (ext.pedersen ext.balancesSelector b) b hs)
    have h2 := SMap.length_insert m (ext.pedersen ext.balancesSelector b) b hs
    by_cases hmem : ext.pedersen ext.balancesSelector b ∈ m.map Prod.fst
    · rw [if_pos hmem] at h2
      simp only [List.length_cons]
      omega
    · rw [if_neg hmem] at h2
      simp only [List.length_cons]
      omega

theorem filter_fst_eq_nil {α : Type} (l : List (Nat × α)) (i : Nat)
    (h : i ∉ l.map Prod.fst) : l.filter (fun p => decide (p.1 = i)) = [] := by
  rw [List.filter_eq_nil_iff]
  intro p hp
  simp only [decide_eq_true_eq]
  intro hc
  exact h (List.mem_map.mpr ⟨p, hp, hc⟩)

theorem filter_fst_eq_single {α : Type} [DecidableEq α] (l : List (Nat × α))
    (i : Nat) (s : α) (hnd : (l.map Prod.fst).Nodup) (hm : (i, s) ∈ l) :
    l.filter (fun p => decide (p.1 = i)) = [(i, s)] := by
  induction l with
  | nil => simp at hm
  | cons q rest ih =>
    obtain ⟨j, t⟩ := q
    rw [List.map_cons, List.nodup_cons] at hnd
    rcases List.mem_cons.mp hm with hh | hh
    · have hj : j = i := (congrArg Prod.fst hh.symm)
      subst hj
      have ht : t = s := (congrArg Prod.snd hh.symm)
      subst ht
      have hrest : rest.filter (fun p => decide (p.1 = j)) = [] :=
        filter_fst_eq_nil rest j hnd.1
      simp [List.filter_cons, hrest]
    · have hi : i ∈ rest.map Prod.fst := List.mem_map.mpr ⟨(i, s), hh, rfl⟩
      have hj : j ≠ i := fun hc => hnd.1 (hc ▸ hi)
      simp only [List.filter_cons, decide_eq_true_eq]
      rw [if_neg (by simpa using hj)]
      exact ih hnd.2 hh

theorem filter_ca_eq_single (l : List (Nat × List Nat)) (ci : Nat) (tb : List Nat)
    (hnd : (l.map Prod.fst).Nodup) (hm : (ci, tb) ∈ l) :
    l.filter (fun p => decide (p.1 = ci ∧ p.2 = tb)) = [(ci, tb)] := by
  induction l with
  | nil => simp at hm
  | cons q rest ih =>
    obtain ⟨j, t⟩ := q
    rw [List.map_cons, List.nodup_cons] at hnd
    rcases List.mem_cons.mp hm with hh | hh
    · have hj : j = ci := (congrArg Prod.fst hh.symm)
      subst hj
      have ht : t = tb := (congrArg Prod.snd hh.symm)
      subst ht
      have hrest : rest.filter (fun p => decide (p.1 = j ∧ p.2 = t)) = [] := by
        rw [List.filter_eq_nil_iff]
        intro p hp
        simp only [decide_eq_true_eq, not_and]
        intro hc _
        exact hnd.1 (hc ▸ List.mem_map.mpr ⟨p, hp, rfl⟩)
      simp only [List.filter_cons]
      rw [if_pos (by simp), hrest]
    · have hi : ci ∈ rest.map Prod.fst := List.mem_map.mpr ⟨(ci, tb), hh, rfl⟩
      have hj : ¬(j = ci ∧ t = tb) := fun hc => hnd.1 (hc.1 ▸ hi)
      simp only [List.filter_cons]
      rw [if_neg (by simpa using hj)]
      exact ih hnd.2 hh

theorem mem_joined_elim (sas cas : List (Nat × List Nat)) (tb : List Nat)
    (ups : List UpdateRow) (r : JRow) (h : r ∈ joinedRows sas cas tb ups) :
    ∃ u ∈ ups, ∃ sa ∈ sas, ∃ ca ∈ cas,
      sa.1 = u.storage_address_id ∧ ca.1 = u.contract_address_id ∧ ca.2 = tb ∧
      r = ⟨u, sa.2, ca.2⟩ := by
  unfold joinedRows at h
  rcases List.mem_flatMap.mp h with ⟨u, hu, hr⟩
  rcases List.mem_flatMap.mp hr with ⟨sa, hsa, hr2⟩
  rcases List.mem_map.mp hr2 with ⟨ca, hca, hr3⟩
  rcases List.mem_filter.mp hsa with ⟨hsam, hsap⟩
  rcases List.mem_filter.mp hca with ⟨hcam, hcap⟩
  simp only [decide_eq_true_eq] at hsap hcap
  exact ⟨u, hu, sa, hsam, ca, hcam, hsap, hcap.1, hcap.2, hr3.symm⟩

theorem joined_filter_key (sas cas : List (Nat × List Nat)) (tb : List Nat)
    (ups : List UpdateRow) (ci i : Nat) (sbytes : List Nat)
    (hndsa : (sas.map Prod.fst).Nodup) (hndca : (cas.map Prod.fst).Nodup)
    (hsa : (i, sbytes) ∈ sas) (hca : (ci, tb) ∈ cas) :
    (joinedRows sas cas tb ups).filter (fun r => decide (jkey r = (ci, i))) =
      (ups.filter (fun u =>
        decide (u.contract_address_id = ci ∧ u.storage_address_id = i))).map
          (fun u => ⟨u, sbytes, tb⟩) := by
  induction ups with
  | nil => rfl
  | cons u rest ih =>
    unfold joinedRows
    rw [List.flatMap_cons, List.filter_append]
    unfold joinedRows at ih
    rw [ih]
    by_cases hki : u.contract_address_id = ci ∧ u.storage_address_id = i
    · have hsaf : sas.filter (fun sa => decide (sa.1 = u.storage_address_id)) =
          [(i, sbytes)] := by
        rw [hki.2]
        exact filter_fst_eq_single sas i sbytes hndsa hsa
      have hcaf : cas.filter (fun ca =>
          decide (ca.1 = u.contract_address_id ∧ ca.2 = tb)) = [(ci, tb)] := by
        rw [hki.1]
        exact filter_ca_eq_single cas ci tb hndca hca
      rw [hsaf, hcaf]
      have hkey : jkey ⟨u, sbytes, tb⟩ = (ci, i) := by
        simp [jkey, hki.1, hki.2]
      simp [List.filter_cons, hkey, List.filter_cons, hki]
    · have hinner : ((sas.filter (fun sa => decide (sa.1 = u.storage_address_id))).flatMap
          (fun sa => (cas.filter (fun ca =>
            decide (ca.1 = u.contract_address_id ∧ ca.2 = tb))).map
              (fun ca => (⟨u, sa.2, ca.2⟩ : JRow)))).filter
            (fun r => decide (jkey r = (ci, i))) = [] := by
        rw [List.filter_eq_nil_iff]
        intro r hr
        rcases List.mem_flatMap.mp hr with ⟨sa, _hsa, hr2⟩
        rcases List.mem_map.mp hr2 with ⟨ca, _hca, hr3⟩
        subst hr3
        simp only [decide_eq_true_eq, jkey]
        intro hc
        exact hki ⟨congrArg Prod.fst hc, congrArg Prod.snd hc⟩
      rw [hinner]
      simp [List.filter_cons, hki]

theorem shard_group_filter (R : List JRow) (S s : Nat) (k : Nat × Nat) :
    (R.filter (fun r => decide (r.upd.storage_address_id % S = s))).filter
      (fun r => decide (jkey r = k)) =
    (if k.2 % S = s then R.filter (fun r => decide (jkey r = k)) else []) := by
  rw [List.filter_filter]
  by_cases hk : k.2 % S = s
  · rw [if_pos hk]
    apply List.filter_congr
    intro r _hr
    by_cases hr : jkey r = k
    · have hsid : r.upd.storage_address_id = k.2 := congrArg Prod.snd hr
      simp [hr, hsid, hk]
    · simp [hr]
  · rw [if_neg hk]
    rw [List.filter_eq_nil_iff]
    intro r _hr
    simp only [Bool.and_eq_true, decide_eq_true_eq, not_and]
    intro hkey hsh
    have hsid : r.upd.storage_address_id = k.2 := congrArg Prod.snd hkey
    exact hk (hsid ▸ hsh)

theorem shardRows_decomp (db : DB) (tb : List Nat) (S s : Nat) :
    shardRows db tb S s =
      ((dedupF ((db.joined tb).map jkey)).filter
        (fun k => decide (k.2 % S = s))).filterMap (groupOut (db.joined tb)) := by
  simp only [shardRows]
  have hpred : (fun r : JRow => decide (r.upd.storage_address_id % S = s)) =
      (fun r : JRow => (fun k : Nat × Nat => decide (k.2 % S = s)) (jkey r)) := rfl
  have hmap : ((db.joined tb).filter
      (fun r => decide (r.upd.storage_address_id % S = s))).map jkey =
      ((db.joined tb).map jkey).filter (fun k => decide (k.2 % S = s)) := by
    rw [hpred]
    exact map_filter_comm jkey (fun k => decide (k.2 % S = s)) (db.joined tb)
  rw [hmap, dedupF_filter]
  apply List.filterMap_congr
  intro k hk
  rcases List.mem_filter.mp hk with ⟨_hkK, hks⟩
  have hks' : k.2 % S = s := by simpa using hks
  unfold groupOut
  rw [shard_group_filter, if_pos hks']

theorem shardRows_one (db : DB) (tb : List Nat) :
    shardRows db tb 1 0 =
      (dedupF ((db.joined tb).map jkey)).filterMap (groupOut (db.joined tb)) := by
  rw [shardRows_decomp]
  have hfil : (dedupF ((db.joined tb).map jkey)).filter
      (fun k => decide (k.2 % 1 = 0)) = dedupF ((db.joined tb).map jkey) := by
    have : ∀ k ∈ dedupF ((db.joined tb).map jkey),
        (fun k : Nat × Nat => decide (k.2 % 1 = 0)) k = (fun _ => true) k := by
      intro k _hk
      simp [Nat.mod_one]
    rw [List.filter_congr this, List.filter_true]
  rw [hfil]

theorem shard_flatten_perm (db : DB) (tb : List Nat) (S : Nat) (hS : 1 ≤ S) :
    (((List.range S).map (fun s => shardRows db tb S s)).flatten).Perm
      ((dedupF ((db.joined tb).map jkey)).filterMap (groupOut (db.joined tb))) := by
  have hmap : (List.range S).map (fun s => shardRows db tb S s) =
      (List.range S).map (fun s =>
        ((dedupF ((db.joined tb).map jkey)).filter
          (fun k => decide (k.2 % S = s))).filterMap (groupOut (db.joined tb))) := by
    apply List.map_congr_left
    intro s _hs
    exact shardRows_decomp db tb S s
  rw [hmap]
  have hjm : (List.range S).map (fun s =>
      ((dedupF ((db.joined tb).map jkey)).filter
        (fun k => decide (k.2 % S = s))).filterMap (groupOut (db.joined tb))) =
      ((List.range S).map (fun s =>
        (dedupF ((db.joined tb).map jkey)).filter
          (fun k => decide (k.2 % S = s)))).map
            (List.filterMap (groupOut (db.joined tb))) := by
    rw [List.map_map]
    rfl
  rw [hjm, ← List.filterMap_flatten]
  exact List.Perm.filterMap _
    (bucket_perm S hS (fun k => k.2) (dedupF ((db.joined tb).map jkey)))

theorem effAcct_elim (ext : Externals) (hm : List (Nat × Nat)) (a : Nat) (r : ShardRow)
    (h : effAcct ext hm a r = true) :
    ∃ f, ext.fromHex ("0x" ++ r.storage_hex) = some f ∧ SMap.lookup hm f = some a := by
  cases hfh : ext.fromHex ("0x" ++ r.storage_hex) with
  | none =>
    simp only [effAcct, hfh] at h
    simp at h
  | some f =>
    simp only [effAcct, hfh] at h
    cases hlk : SMap.lookup hm f with
    | none =>
      rw [hlk] at h
      simp at h
    | some b =>
      rw [hlk] at h
      have hb : b = a := by simpa using h
      exact ⟨f, rfl, hb ▸ hlk⟩

theorem canonical_eff_key (ext : Externals) (db : DB) (tb : List Nat)
    (accounts : List Nat) (x : ShardRow) (a : Nat) (kx : Nat × Nat)
    (hkx : groupOut (db.joined tb) kx = some x)
    (hex : effAcct ext (accounts_hash_map ext accounts) a x = true) :
    ∃ sa ∈ db.storage_addresses, ∃ ca ∈ db.contract_addresses,
      kx = (ca.1, sa.1) ∧ ca.2 = tb ∧
      ext.fromHex ("0x" ++ hexOfBytes sa.2) =
        some (ext.pedersen ext.balancesSelector a) := by
  unfold groupOut at hkx
  rcases Option.map_eq_some'.mp hkx with ⟨px, hpx, hxeq⟩
  have hpmem := pickMax_mem _ _ hpx
  rcases List.mem_filter.mp hpmem with ⟨hpR, hpk⟩
  have hpk' : jkey px = kx := by simpa using hpk
  rcases mem_joined_elim db.storage_addresses db.contract_addresses tb
    db.storage_updates px hpR with ⟨u, _hu, sa, hsa, ca, hca, hsaid, hcaid, hcatb, hpx'⟩
  rcases effAcct_elim ext _ a x hex with ⟨f, hf, hlk⟩
  have hfped : f = ext.pedersen ext.balancesSelector a :=
    (accounts_hash_map_mem ext accounts f a
      (SMap.lookup_mem _ f a hlk)).1
  have hxs : x.storage_hex = hexOfBytes sa.2 := by
    rw [← hxeq, hpx']
  refine ⟨sa, hsa, ca, hca, ?_, hcatb, ?_⟩
  · rw [← hpk', hpx']
    simp [jkey, hsaid, hcaid]
  · rw [← hxs, hf, hfped]

theorem canonical_eff_det (ext : Externals) (db : DB) (tb : List Nat)
    (accounts : List Nat)
    (hinj : ∀ p ∈ db.storage_addresses, ∀ q ∈ db.storage_addresses,
      (ext.fromHex ("0x" ++ hexOfBytes p.2)).isSome →
      ext.fromHex ("0x" ++ hexOfBytes p.2) = ext.fromHex ("0x" ++ hexOfBytes q.2) →
      p = q)
    (hcab : ∀ p ∈ db.contract_addresses, ∀ q ∈ db.contract_addresses,
      p.2 = q.2 → p.1 = q.1)
    (x y : ShardRow) (a : Nat)
    (hx : x ∈ (dedupF ((db.joined tb).map jkey)).filterMap (groupOut (db.joined tb)))
    (hy : y ∈ (dedupF ((db.joined tb).map jkey)).filterMap (groupOut (db.joined tb)))
    (hex : effAcct ext (accounts_hash_map ext accounts) a x = true)
    (hey : effAcct ext (accounts_hash_map ext accounts) a y = true) : x = y := by
  rcases List.mem_filterMap.mp hx with ⟨kx, _hkxK, hkx⟩
  rcases List.mem_filterMap.mp hy with ⟨ky, _hkyK, hky⟩
  rcases canonical_eff_key ext db tb accounts x a kx hkx hex with
    ⟨sax, hsax, cax, hcax, hkxeq, hcaxtb, hfx⟩
  rcases canonical_eff_key ext db tb accounts y a ky hky hey with
    ⟨say, hsay, cay, hcay, hkyeq, hcaytb, hfy⟩
  have hsaeq : sax = say := by
    apply hinj sax hsax say hsay
    · rw [hfx]
      rfl
    · rw [hfx, hfy]
  have hcaeq : cax.1 = cay.1 := hcab cax hcax cay hcay (hcaxtb.trans hcaytb.symm)
  have hkeq : kx = ky := by
    rw [hkxeq, hkyeq, hsaeq, hcaeq]
  have : some x = some y := by
    rw [← hkx, ← hky, hkeq]
  exact Option.some.inj this

theorem tokenBal_eq_one_shard (ext : Externals) (db : DB) (S : Nat)
    (accounts : List Nat) (t : Nat) (hwf : DBWF ext db) (hS : 1 ≤ S) :
    tokenBal ext db S (accounts_hash_map ext accounts) t =
      tokenBal ext db 1 (accounts_hash_map ext accounts) t := by
  obtain ⟨_hnds, _hndc, hinj, hcab⟩ := hwf
  unfold tokenBal
  have hone : ((List.range 1).map
      (fun s => shardRows db (ext.tokenEnc t) 1 s)).flatten =
      (dedupF (((db.joined (ext.tokenEnc t))).map jkey)).filterMap
        (groupOut (db.joined (ext.tokenEnc t))) := by
    have h1 : List.range 1 = [0] := rfl
    rw [h1, List.map_cons, List.map_nil, List.flatten_cons, List.flatten_nil,
      List.append_nil, shardRows_one]
  rw [hone]
  have hperm := shard_flatten_perm db (ext.tokenEnc t) S hS
  apply hperm.foldl_eq'
  intro x hxmem y hymem z
  apply processRow_comm
  by_cases hxy : x = y
  · exact Or.inl hxy
  · right
    intro a ⟨hex, hey⟩
    apply hxy
    exact canonical_eff_det ext db (ext.tokenEnc t) accounts hinj hcab x y a
      (hperm.mem_iff.mp hxmem) (hperm.mem_iff.mp hymem) hex hey

theorem foldl_insert_congr {α : Type} (f g : Nat → α) (l : List Nat)
    (m : List (Nat × α)) (h : ∀ t ∈ l, f t = g t) :
    l.foldl (fun acc t => SMap.insert acc t (f t)) m =
      l.foldl (fun acc t => SMap.insert acc t (g t)) m := by
  induction l generalizing m with
  | nil => rfl
  | cons t rest ih =>
    rw [List.foldl_cons, List.foldl_cons, h t (List.mem_cons_self _ _)]
    exact ih _ (fun x hx => h x (List.mem_cons_of_mem _ hx))

theorem lookup_balance_master (ext : Externals) (db : DB) (S : Nat) (ad : Addresses)
    (t ci i : Nat) (sbytes : List Nat) (f acct : Nat) (u' : UpdateRow)
    (hwf : DBWF ext db) (hS : 1 ≤ S) (ht : t ∈ ad.tokens)
    (hca : (ci, ext.tokenEnc t) ∈ db.contract_addresses)
    (hsa : (i, sbytes) ∈ db.storage_addresses)
    (hparse : ext.fromHex ("0x" ++ hexOfBytes sbytes) = some f)
    (hacct : SMap.lookup (accounts_hash_map ext ad.accounts) f = some acct)
    (hu : u' ∈ db.storage_updates)
    (hcid : u'.contract_address_id = ci) (hsid : u'.storage_address_id = i)
    (hmax : ∀ u ∈ db.storage_updates, u.contract_address_id = ci →
      u.storage_address_id = i → u ≠ u' → u.block_number < u'.block_number) :
    ∃ m bm, get_balance_map ext db S ad = Except.ok m ∧
      SMap.lookup m t = some bm ∧
      SMap.lookup bm acct =
        some ((ext.fromHex (hexOfBytes u'.storage_value)).getD 0) := by
  obtain ⟨hnds, hndc, hinj, hcab⟩ := hwf
  have hGF := joined_filter_key db.storage_addresses db.contract_addresses
    (ext.tokenEnc t) db.storage_updates ci i sbytes hnds hndc hsa hca
  rw [show joinedRows db.storage_addresses db.contract_addresses (ext.tokenEnc t)
      db.storage_updates = db.joined (ext.tokenEnc t) from rfl] at hGF
  have hu'U : u' ∈ db.storage_updates.filter (fun u =>
      decide (u.contract_address_id = ci ∧ u.storage_address_id = i)) :=
    List.mem_filter.mpr ⟨hu, by simp [hcid, hsid]⟩
  have hpick : pickMax ((db.joined (ext.tokenEnc t)).filter
      (fun r => decide (jkey r = (ci, i)))) =
      some ⟨u', sbytes, ext.tokenEnc t⟩ := by
    rw [hGF]
    apply pickMax_unique
    · exact List.mem_map.mpr ⟨u', hu'U, rfl⟩
    · intro x hx hne
      rcases List.mem_map.mp hx with ⟨u, huU, hxe⟩
      rcases List.mem_filter.mp huU with ⟨hups, hcond⟩
      simp only [decide_eq_true_eq] at hcond
      have hune : u ≠ u' := by
        intro hc
        apply hne
        rw [← hxe, hc]
      have := hmax u hups hcond.1 hcond.2 hune
      rw [← hxe]
      exact this
  have hgo : groupOut (db.joined (ext.tokenEnc t)) (ci, i) =
      some ⟨hexOfBytes (ext.tokenEnc t), hexOfBytes sbytes,
        hexOfBytes u'.storage_value, u'.block_number⟩ := by
    unfold groupOut
    rw [hpick]
    rfl
  have hkK : (ci, i) ∈ dedupF ((db.joined (ext.tokenEnc t)).map jkey) := by
    rw [mem_dedupF]
    apply List.mem_map.mpr
    refine ⟨⟨u', sbytes, ext.tokenEnc t⟩, ?_, ?_⟩
    · have hmemf : (⟨u', sbytes, ext.tokenEnc t⟩ : JRow) ∈
          (db.joined (ext.tokenEnc t)).filter
            (fun r => decide (jkey r = (ci, i))) := by
        rw [hGF]
        exact List.mem_map.mpr ⟨u', hu'U, rfl⟩
      exact (List.mem_filter.mp hmemf).1
    · simp [jkey, hcid, hsid]
  have hr'canon : (⟨hexOfBytes (ext.tokenEnc t), hexOfBytes sbytes,
      hexOfBytes u'.storage_value, u'.block_number⟩ : ShardRow) ∈
      (dedupF ((db.joined (ext.tokenEnc t)).map jkey)).filterMap
        (groupOut (db.joined (ext.tokenEnc t))) :=
    List.mem_filterMap.mpr ⟨(ci, i), hkK, hgo⟩
  have hs'lt : i % S < S := Nat.mod_lt _ (by omega)
  have hr'shard : (⟨hexOfBytes (ext.tokenEnc t), hexOfBytes sbytes,
      hexOfBytes u'.storage_value, u'.block_number⟩ : ShardRow) ∈
      shardRows db (ext.tokenEnc t) S (i % S) := by
    rw [shardRows_decomp]
    apply List.mem_filterMap.mpr
    refine ⟨(ci, i), ?_, hgo⟩
    exact List.mem_filter.mpr ⟨hkK, by simp⟩
  have hr'flat : (⟨hexOfBytes (ext.tokenEnc t), hexOfBytes sbytes,
      hexOfBytes u'.storage_value, u'.block_number⟩ : ShardRow) ∈
      ((List.range S).map (fun s => shardRows db (ext.tokenEnc t) S s)).flatten :=
    List.mem_flatten.mpr ⟨shardRows db (ext.tokenEnc t) S (i % S),
      List.mem_map.mpr ⟨i % S, List.mem_range.mpr hs'lt, rfl⟩, hr'shard⟩
  have heff : effAcct ext (accounts_hash_map ext ad.accounts) acct
      ⟨hexOfBytes (ext.tokenEnc t), hexOfBytes sbytes,
        hexOfBytes u'.storage_value, u'.block_number⟩ = true :=
    effAcct_self ext (accounts_hash_map ext ad.accounts)
      ⟨hexOfBytes (ext.tokenEnc t), hexOfBytes sbytes,
        hexOfBytes u'.storage_value, u'.block_number⟩ f acct hparse hacct
  have huniq : ∀ x ∈ ((List.range S).map
      (fun s => shardRows db (ext.tokenEnc t) S s)).flatten,
      effAcct ext (accounts_hash_map ext ad.accounts) acct x = true →
      x = ⟨hexOfBytes (ext.tokenEnc t), hexOfBytes sbytes,
        hexOfBytes u'.storage_value, u'.block_number⟩ := by
    intro x hxf hex
    have hxcanon : x ∈ (dedupF ((db.joined (ext.tokenEnc t)).map jkey)).filterMap
        (groupOut (db.joined (ext.tokenEnc t))) := by
      rcases List.mem_flatten.mp hxf with ⟨l, hl, hxl⟩
      rcases List.mem_map.mp hl with ⟨s, _hs, hle⟩
      rw [← hle, shardRows_decomp] at hxl
      rcases List.mem_filterMap.mp hxl with ⟨k, hkf, hgk⟩
      exact List.mem_filterMap.mpr ⟨k, (List.mem_filter.mp hkf).1, hgk⟩
    exact canonical_eff_det ext db (ext.tokenEnc t) ad.accounts hinj hcab x _ acct
      hxcanon hr'canon hex heff
  refine ⟨_, tokenBal ext db S (accounts_hash_map ext ad.accounts) t,
    get_balance_map_ok ext db S ad, ?_, ?_⟩
  · rw [foldl_insert_lookup]
    simp [ht]
  · unfold tokenBal
    rw [foldl_processRow_lookup_unique ext (accounts_hash_map ext ad.accounts) _ []
      acct ⟨hexOfBytes (ext.tokenEnc t), hexOfBytes sbytes,
        hexOfBytes u'.storage_value, u'.block_number⟩ hr'flat huniq heff]
    rfl

theorem lastMatch_sat {α : Type} (p : α → Bool) (l : List α) (b : α)
    (h : lastMatch p l = some b) : p b = true := by
  induction l with
  | nil => simp [lastMatch] at h
  | cons x rest ih =>
    simp only [lastMatch] at h
    cases hlm : lastMatch p rest with
    | some c =>
      rw [hlm] at h
      have hbc : c = b := Option.some.inj h
      exact ih (hbc ▸ hlm)
    | none =>
      rw [hlm] at h
      by_cases hx : p x = true
      · rw [if_pos hx] at h
        exact (Option.some.inj h) ▸ hx
      · rw [if_neg (by simpa using hx)] at h
        simp at h

theorem lastMatch_isSome {α : Type} (p : α → Bool) (l : List α) (a : α)
    (ha : a ∈ l) (hp : p a = true) : (lastMatch p l).isSome = true := by
  induction l with
  | nil => simp at ha
  | cons x rest ih =>
    simp only [lastMatch]
    cases hlm : lastMatch p rest with
    | some c => simp
    | none =>
      rcases List.mem_cons.mp ha with ha | ha
      · subst ha
        simp [hp]
      · have := ih ha
        rw [hlm] at this
        simp at this

theorem lastMatch_spec {α : Type} (p : α → Bool) (l : List α) (a : α)
    (ha : a ∈ l) (hp : p a = true) :
    ∃ b, lastMatch p l = some b ∧ p b = true := by
  rcases Option.isSome_iff_exists.mp (lastMatch_isSome p l a ha hp) with ⟨b, hb⟩
  exact ⟨b, hb, lastMatch_sat p l b hb⟩

/-- C7: the Hasher (`accounts_hash_map`) looks up, at any slot key, the
last input account hashing to that key (later duplicates overwrite
earlier ones); its size is at most the input length; and every requested
account `a` is reachable under its derived slot `pedersen(selector, a)`
(the stored account shares that slot). -/
theorem c7_hasher (ext : Externals) (accounts : List Nat) :
    (∀ k, SMap.lookup (accounts_hash_map ext accounts) k =
      lastMatch (fun b => decide (ext.pedersen ext.balancesSelector b = k)) accounts) ∧
    (accounts_hash_map ext accounts).length ≤ accounts.length ∧
    (∀ a ∈ accounts, ∃ a2,
      SMap.lookup (accounts_hash_map ext accounts)
        (ext.pedersen ext.balancesSelector a) = some a2 ∧
      ext.pedersen ext.balancesSelector a2 = ext.pedersen ext.balancesSelector a) := by
  refine ⟨accounts_hash_map_lookup ext accounts,
    accounts_hash_map_length ext accounts, ?_⟩
  intro a ha
  rcases lastMatch_spec (fun b =>
      decide (ext.pedersen ext.balancesSelector b = ext.pedersen ext.balancesSelector a))
      accounts a ha (by simp) with ⟨b, hb, hpb⟩
  refine ⟨b, ?_, by simpa using hpb⟩
  rw [accounts_hash_map_lookup]
  exact hb

/-- C8: a merge-loop row whose storage-slot hex string fails to parse as
a field element is skipped silently: processing it leaves the balance map
unchanged (no entry at all, unlike the zero recorded on a value-parse
failure), no error arises, and the remaining rows are processed exactly
as if the row were absent. -/
theorem c8_slot_parse_skip (ext : Externals) (hm m : List (Nat × Nat))
    (pre post : List ShardRow) (r : ShardRow)
    (h : ext.fromHex ("0x" ++ r.storage_hex) = none) :
    processRow ext hm m r = m ∧
    (pre ++ r :: post).foldl (processRow ext hm) m =
      (pre ++ post).foldl (processRow ext hm) m := by
  have hrel : relRow ext hm r = false := by simp [relRow, h]
  have hskip : ∀ m2, processRow ext hm m2 r = m2 :=
    fun m2 => processRow_not_rel ext hm m2 r hrel
  refine ⟨hskip m, ?_⟩
  rw [List.foldl_append, List.foldl_append, List.foldl_cons, hskip]

/-- Witness for C8: a concrete row with storage hex `""` (so the parsed
string is just `"0x"`) is skipped and removed from the fold. -/
theorem c8_slot_parse_skip_witness :
    processRow extW [(10, 9)] [(3, 4)] ⟨"07", "", "0A", 5⟩ = [(3, 4)] ∧
    ([] ++ (⟨"07", "", "0A", 5⟩ : ShardRow) :: []).foldl
      (processRow extW [(10, 9)]) [(3, 4)] =
      (([] : List ShardRow) ++ []).foldl (processRow extW [(10, 9)]) [(3, 4)] :=
  c8_slot_parse_skip extW [(10, 9)] [(3, 4)] [] [] ⟨"07", "", "0A", 5⟩ (by decide)

/-- C9: with an empty account sequence, `get_balance_map` still succeeds
without error, and every requested token maps to an empty
account→balance map. -/
theorem c9_empty_accounts (ext : Externals) (db : DB) (S : Nat)
    (toks : List Nat) (t : Nat) (ht : t ∈ toks) :
    ∃ m, get_balance_map ext db S { accounts := [], tokens := toks } = Except.ok m ∧
      SMap.lookup m t = some [] := by
  have hrel : ∀ r : ShardRow, relRow ext [] r = false := by
    intro r
    unfold relRow
    cases ext.fromHex ("0x" ++ r.storage_hex) with
    | none => rfl
    | some f => rfl
  have htb : tokenBal ext db S (accounts_hash_map ext ([] : List Nat)) t = [] := by
    unfold tokenBal
    have hhm : accounts_hash_map ext ([] : List Nat) = [] := rfl
    rw [hhm, foldl_processRow_skip]
    have hfil : (((List.range S).map
        (fun s => shardRows db (ext.tokenEnc t) S s)).flatten).filter
          (relRow ext []) = [] := by
      rw [List.filter_eq_nil_iff]
      intro r _hr
      simp [hrel r]
    rw [hfil]
    rfl
  refine ⟨_, get_balance_map_ok ext db S _, ?_⟩
  rw [foldl_insert_lookup]
  simp only [ht, if_pos]
  rw [htb]

/-- Witness for C9 at a concrete log and token list. -/
theorem c9_empty_accounts_witness :
    ∃ m, get_balance_map extW dbW 3 { accounts := [], tokens := [7] } =
      Except.ok m ∧ SMap.lookup m 7 = some [] :=
  c9_empty_accounts extW dbW 3 [7] 7 (by decide)

/-- C10: the key set of the returned BalanceMapping is exactly the set of
requested tokens — no foreign key ever appears — and its size is the
number of distinct requested tokens (duplicates collapse into one entry). -/
theorem c10_key_set (ext : Externals) (db : DB) (S : Nat) (ad : Addresses) :
    ∃ m, get_balance_map ext db S ad = Except.ok m ∧
      (∀ t, (SMap.lookup m t).isSome = true ↔ t ∈ ad.tokens) ∧
      m.length = ad.tokens.dedup.length := by
  refine ⟨_, get_balance_map_ok ext db S ad, ?_, ?_⟩
  · intro t
    rw [foldl_insert_lookup]
    by_cases ht : t ∈ ad.tokens <;> simp [ht, SMap.lookup]
  · have hsorted : SMapSorted (ad.tokens.foldl (fun acc t =>
        SMap.insert acc t (tokenBal ext db S (accounts_hash_map ext ad.accounts) t))
          []) :=
      SMap.sorted_fold_insert
        (fun t => tokenBal ext db S (accounts_hash_map ext ad.accounts) t)
        ad.tokens [] List.Pairwise.nil
    have hnd := SMap.sorted_keys_nodup _ hsorted
    have hmem : ∀ t, (t ∈ (ad.tokens.foldl (fun acc t =>
        SMap.insert acc t (tokenBal ext db S (accounts_hash_map ext ad.accounts) t))
          []).map Prod.fst) ↔ t ∈ ad.tokens := by
      intro t
      rw [← SMap.lookup_isSome_iff, foldl_insert_lookup]
      by_cases ht : t ∈ ad.tokens <;> simp [ht, SMap.lookup]
    have hset : ((ad.tokens.foldl (fun acc t =>
        SMap.insert acc t (tokenBal ext db S (accounts_hash_map ext ad.accounts) t))
          []).map Prod.fst).toFinset = ad.tokens.toFinset := by
      apply Finset.ext
      intro t
      simp only [List.mem_toFinset]
      exact hmem t
    calc (ad.tokens.foldl (fun acc t =>
        SMap.insert acc t (tokenBal ext db S (accounts_hash_map ext ad.accounts) t))
          []).length
        = ((ad.tokens.foldl (fun acc t =>
          SMap.insert acc t (tokenBal ext db S (accounts_hash_map ext ad.accounts) t))
            []).map Prod.fst).length := (List.length_map _ _).symm
      _ = ((ad.tokens.foldl (fun acc t =>
          SMap.insert acc t (tokenBal ext db S (accounts_hash_map ext ad.accounts) t))
            []).map Prod.fst).toFinset.card :=
          (List.toFinset_card_of_nodup hnd).symm
      _ = ad.tokens.toFinset.card := by rw [hset]
      _ = ad.tokens.dedup.length := List.card_toFinset _

/-- C3: every requested token has an entry in the returned BalanceMapping;
a token with no matching observation in the log maps to the empty map. -/
theorem c3_completeness (ext : Externals) (db : DB) (S : Nat) (ad : Addresses)
    (t : Nat) (ht : t ∈ ad.tokens) :
    ∃ m, get_balance_map ext db S ad = Except.ok m ∧
      (∃ bm, SMap.lookup m t = some bm) ∧
      (db.joined (ext.tokenEnc t) = [] → SMap.lookup m t = some []) := by
  refine ⟨_, get_balance_map_ok ext db S ad, ?_, ?_⟩
  · rw [foldl_insert_lookup]
    refine ⟨tokenBal ext db S (accounts_hash_map ext ad.accounts) t, ?_⟩
    simp [ht]
  · intro hj
    have htb : tokenBal ext db S (accounts_hash_map ext ad.accounts) t = [] := by
      unfold tokenBal
      have hsr : ∀ s, shardRows db (ext.tokenEnc t) S s = [] := by
        intro s
        simp [shardRows, hj, dedupF]
      have hmap : (List.range S).map (fun s => shardRows db (ext.tokenEnc t) S s) =
          (List.range S).map (fun _ => ([] : List ShardRow)) :=
        List.map_congr_left (fun s _ => hsr s)
      rw [hmap]
      have hflat : ((List.range S).map (fun _ => ([] : List ShardRow))).flatten = [] := by
        induction (List.range S) with
        | nil => rfl
        | cons a l ih => simp [ih]
      rw [hflat]
      rfl
    rw [foldl_insert_lookup]
    simp only [ht, if_pos]
    rw [htb]

/-- Witness for C3 at a concrete log and requested token. -/
theorem c3_completeness_witness :
    ∃ m, get_balance_map extW dbW 2 addrsW = Except.ok m ∧
      (∃ bm, SMap.lookup m 7 = some bm) ∧
      (dbW.joined (extW.tokenEnc 7) = [] → SMap.lookup m 7 = some []) :=
  c3_completeness extW dbW 2 addrsW 7 (by decide)

/-- C2 (amended): on a well-interned log (`DBWF`), running the resolution
with any `N ≥ 1` shards per token yields exactly the BalanceMapping of
the single-shard run; in particular the result does not depend on the
shard partition.  On logs that intern the same slot BLOB under several
ids the code violates the claim (see the counterexample). -/
theorem c2_shard_determinism (ext : Externals) (db : DB) (ad : Addresses)
    (N : Nat) (hwf : DBWF ext db) (hN : 1 ≤ N) :
    get_balance_map ext db N ad = get_balance_map ext db 1 ad := by
  rw [get_balance_map_ok, get_balance_map_ok]
  congr 1
  exact foldl_insert_congr
    (fun t => tokenBal ext db N (accounts_hash_map ext ad.accounts) t)
    (fun t => tokenBal ext db 1 (accounts_hash_map ext ad.accounts) t)
    ad.tokens []
    (fun t _ht => tokenBal_eq_one_shard ext db N ad.accounts t hwf hN)

/-- Witness for C2 on the interned log: 2 shards and 1 shard agree. -/
theorem c2_shard_determinism_witness :
    get_balance_map extW dbW 2 addrsW = get_balance_map extW dbW 1 addrsW :=
  c2_shard_determinism extW dbW addrsW 2 (by decide) (by decide)

/-- Counterexample to C2 as stated: on `dbDup` — the same slot BLOB `[10]`
interned under ids 1 and 2, its two writes referencing the two ids — the
2-shard run returns the block-100 value 1000 while the 1-shard run
returns the block-200 value 2000, so the mapping does depend on the shard
count. -/
theorem c2_counterexample :
    (get_balance_map extW dbDup 2 addrsW).toOption ≠
      (get_balance_map extW dbDup 1 addrsW).toOption := by
  decide

/-- C1 (amended): on a well-interned log (`DBWF`), for any shard count
`S ≥ 1`, if the update `u'` is the unique maximum-version write among the
updates of the (contract `ci`, slot id `i`) pair of a requested token
`t`, and the slot's BLOB parses to the derived slot of the account
`acct`, then the returned BalanceMapping maps `t`/`acct` to the parsed
value of `u'` — the maximum-version observation wins regardless of shard
placement.  Without the interning discipline the code violates the claim
(see the counterexample). -/
theorem c1_latest_wins (ext : Externals) (db : DB) (S : Nat) (ad : Addresses)
    (t ci i : Nat) (sbytes : List Nat) (f acct : Nat) (u' : UpdateRow) (v : Nat)
    (hwf : DBWF ext db) (hS : 1 ≤ S) (ht : t ∈ ad.tokens)
    (hca : (ci, ext.tokenEnc t) ∈ db.contract_addresses)
    (hsa : (i, sbytes) ∈ db.storage_addresses)
    (hparse : ext.fromHex ("0x" ++ hexOfBytes sbytes) = some f)
    (hacct : SMap.lookup (accounts_hash_map ext ad.accounts) f = some acct)
    (hu : u' ∈ db.storage_updates)
    (hcid : u'.contract_address_id = ci) (hsid : u'.storage_address_id = i)
    (hmax : ∀ u ∈ db.storage_updates, u.contract_address_id = ci →
      u.storage_address_id = i → u ≠ u' → u.block_number < u'.block_number)
    (hv : ext.fromHex (hexOfBytes u'.storage_value) = some v) :
    ∃ m bm, get_balance_map ext db S ad = Except.ok m ∧
      SMap.lookup m t = some bm ∧ SMap.lookup bm acct = some v := by
  rcases lookup_balance_master ext db S ad t ci i sbytes f acct u' hwf hS ht hca
    hsa hparse hacct hu hcid hsid hmax with ⟨m, bm, hok, hmt, hba⟩
  refine ⟨m, bm, hok, hmt, ?_⟩
  rw [hba, hv]
  rfl

/-- Witness for C1 on the interned log `dbW`: the block-200 write (value
2000) wins over the block-100 write under 2-way sharding. -/
theorem c1_latest_wins_witness :
    ∃ m bm, get_balance_map extW dbW 2 addrsW = Except.ok m ∧
      SMap.lookup m 7 = some bm ∧ SMap.lookup bm 9 = some 2000 :=
  c1_latest_wins extW dbW 2 addrsW 7 1 1 [10] 10 9
    { contract_address_id := 1, storage_address_id := 1
      storage_value := [7, 208], block_number := 200 } 2000
    (by decide) (by decide) (by decide) (by decide) (by decide) (by decide)
    (by decide) (by decide) (by decide) (by decide) (by decide) (by decide)

/-- Counterexample to C1 as stated: in `dbDup` the log holds two
Observations on the same (contract `[7]`, storage-slot BLOB `[10]`) pair
with versions 100 (value 1000) and 200 (value 2000), the slot matches
account 9, yet with 2 shards the code retains the version-100 value 1000
instead of the version-200 value 2000, because the two slot ids place the
pair's history in different shards and the merge never re-reduces by
version. -/
theorem c1_counterexample :
    ((get_balance_map extW dbDup 2 addrsW).toOption.bind (fun m =>
      (SMap.lookup m 7).bind (fun bm => SMap.lookup bm 9))) = some 1000 ∧
    extW.fromHex (hexOfBytes [7, 208]) = some 2000 ∧ (1000 : Nat) ≠ 2000 := by
  refine ⟨by decide, by decide, by decide⟩

theorem mergeShards_ok_ranges (ext : Externals) (hm : List (Nat × Nat)) (db : DB)
    (S t : Nat) :
    mergeShards ext hm [] ((List.range S).map
      (fun s => Except.ok (shardRows db (ext.tokenEnc t) S s))) =
      Except.ok (tokenBal ext db S hm t) := by
  have hcomp : ((List.range S).map
        (fun s => shardRows db (ext.tokenEnc t) S s)).map
          (Except.ok : List ShardRow → Except String (List ShardRow)) =
      (List.range S).map (fun s =>
        (Except.ok (shardRows db (ext.tokenEnc t) S s) :
          Except String (List ShardRow))) := by
    rw [List.map_map]
    rfl
  rw [← hcomp, mergeShards_ok]
  rfl

theorem tokenShards_singleFault_other (ext : Externals) (db : DB) (S : Nat)
    (t s : Nat) (f0 : Fault) (t' : Nat) (hne : t' ≠ t) :
    tokenShards ext (singleFault t s f0) db S t' =
      (List.range S).map (fun s' =>
        Except.ok (shardRows db (ext.tokenEnc t') S s')) := by
  unfold tokenShards
  apply List.map_congr_left
  intro s' _hs'
  simp [singleFault, hne]

theorem mergeShards_singleFault_self (ext : Externals) (hm : List (Nat × Nat))
    (db : DB) (S : Nat) (t s : Nat) (f0 : Fault) (hs : s < S) :
    mergeShards ext hm [] (tokenShards ext (singleFault t s f0) db S t) =
      Except.error (faultMsg f0) := by
  have hsplit : S = s + ((S - s - 1) + 1) := by omega
  have hrange : List.range S = List.range s ++ s ::
      ((List.range (S - s - 1)).map Nat.succ).map (fun x => s + x) := by
    rw [hsplit, List.range_add, List.range_succ_eq_map]
    simp [List.map_map]
  unfold tokenShards
  rw [hrange, List.map_append, List.map_cons]
  have hself : (match singleFault t s f0 t s with
      | some f => Except.error (faultMsg f)
      | none => Except.ok (shardRows db (ext.tokenEnc t) S s)) =
      Except.error (faultMsg f0) := by
    simp [singleFault]
  rw [hself]
  have hpre : (List.range s).map (fun shard =>
      match singleFault t s f0 t shard with
      | some f => Except.error (faultMsg f)
      | none => Except.ok (shardRows db (ext.tokenEnc t) S shard)) =
      ((List.range s).map (fun shard => shardRows db (ext.tokenEnc t) S shard)).map
        Except.ok := by
    rw [List.map_map]
    apply List.map_congr_left
    intro s' hs'
    have : s' ≠ s := by
      have := List.mem_range.mp hs'
      omega
    simp [singleFault, this]
  rw [hpre]
  exact mergeShards_error ext hm _ _ _ _

theorem get_balance_map_f_singleFault (ext : Externals) (db : DB) (S : Nat)
    (ad : Addresses) (t s : Nat) (f0 : Fault) (ht : t ∈ ad.tokens) (hs : s < S) :
    get_balance_map_f ext (singleFault t s f0) db S ad =
      Except.error (faultMsg f0) := by
  simp only [get_balance_map_f]
  suffices haux : ∀ (toks : List Nat) (m : List (Nat × List (Nat × Nat))),
      t ∈ toks →
      collectTokens m (toks.map (fun token =>
        match mergeShards ext (accounts_hash_map ext ad.accounts) []
          (tokenShards ext (singleFault t s f0) db S token) with
        | Except.error e => Except.error e
        | Except.ok tb => Except.ok (token, tb))) = Except.error (faultMsg f0) by
    exact haux ad.tokens [] ht
  intro toks
  induction toks with
  | nil =>
    intro m hmem
    simp at hmem
  | cons t' rest ih =>
    intro m hmem
    rw [List.map_cons]
    by_cases ht' : t' = t
    · subst ht'
      rw [mergeShards_singleFault_self ext _ db S t' s f0 hs]
      rfl
    · rw [tokenShards_singleFault_other ext db S t s f0 t' ht',
        mergeShards_ok_ranges]
      have hmem' : t ∈ rest := by
        rcases List.mem_cons.mp hmem with h | h
        · exact absurd h.symm ht'
        · exact h
      exact ih _ hmem'

/-- C4 (amended): any single shard fault (connection, statement
preparation, query execution, or row collection) aborts the whole run —
`get_balance_map_f` returns an error and no partial BalanceMapping — but
the surfaced error is only the stage prefix plus the underlying rusqlite
message: it is the same string whichever shard failed and does not
identify the failing shard. -/
theorem c4_shard_failure_aborts (ext : Externals) (db : DB) (S : Nat)
    (ad : Addresses) (t s : Nat) (ht : t ∈ ad.tokens) (hs : s < S) :
    (∀ (faults : Nat → Nat → Option Fault) (f0 : Fault), faults t s = some f0 →
      ∃ e, get_balance_map_f ext faults db S ad = Except.error e) ∧
    (∀ f0 : Fault,
      runErr (get_balance_map_f ext (singleFault t s f0) db S ad) =
        some (faultMsg f0)) := by
  constructor
  · intro faults f0 hf
    have hmem : Except.error (faultMsg f0) ∈ tokenShards ext faults db S t := by
      unfold tokenShards
      apply List.mem_map.mpr
      refine ⟨s, List.mem_range.mpr hs, ?_⟩
      rw [hf]
    rcases mergeShards_has_error ext (accounts_hash_map ext ad.accounts)
      (tokenShards ext faults db S t) [] (faultMsg f0) hmem with ⟨e1, he1⟩
    have htok : (Except.error e1 :
        Except String (Nat × List (Nat × Nat))) ∈ ad.tokens.map (fun token =>
        match mergeShards ext (accounts_hash_map ext ad.accounts) []
          (tokenShards ext faults db S token) with
        | Except.error e => Except.error e
        | Except.ok tb => Except.ok (token, tb)) := by
      apply List.mem_map.mpr
      refine ⟨t, ht, ?_⟩
      rw [he1]
    rcases collectTokens_has_error _ [] e1 htok with ⟨e2, he2⟩
    exact ⟨e2, he2⟩
  · intro f0
    rw [get_balance_map_f_singleFault ext db S ad t s f0 ht hs]
    rfl

/-- Witness for C4 at a concrete run: shard 0 of 2 fails with a query
error and the whole run errors with that message. -/
theorem c4_shard_failure_aborts_witness :
    (∀ (faults : Nat → Nat → Option Fault) (f0 : Fault), faults 7 0 = some f0 →
      ∃ e, get_balance_map_f extW faults dbW 2 addrsW = Except.error e) ∧
    (∀ f0 : Fault,
      runErr (get_balance_map_f extW (singleFault 7 0 f0) dbW 2 addrsW) =
        some (faultMsg f0)) :=
  c4_shard_failure_aborts extW dbW 2 addrsW 7 0 (by decide) (by decide)

/-- Counterexample to C4 as stated: the error surfaced when shard 0 fails
is the very same string as when shard 1 fails (the fault configurations
differ), so the surfaced error cannot identify the failing shard. -/
theorem c4_counterexample :
    runErr (get_balance_map_f extW (singleFault 7 0 fW) dbW 2 addrsW) =
      runErr (get_balance_map_f extW (singleFault 7 1 fW) dbW 2 addrsW) ∧
    singleFault 7 0 fW 7 0 = some fW ∧
    singleFault 7 1 fW 7 0 = none := by
  refine ⟨by decide, by decide, by decide⟩

/-- C6 (amended): a value blob that parses to no field element is
recorded as a zero balance — but only when its Observation is the one
the (contract, slot) group retains (the unique maximum-version row); the
run never aborts.  An unparseable value that is superseded by a
higher-version write has no effect at all (see the counterexample). -/
theorem c6_decode_zero (ext : Externals) (db : DB) (S : Nat) (ad : Addresses)
    (t ci i : Nat) (sbytes : List Nat) (f acct : Nat) (u' : UpdateRow)
    (hwf : DBWF ext db) (hS : 1 ≤ S) (ht : t ∈ ad.tokens)
    (hca : (ci, ext.tokenEnc t) ∈ db.contract_addresses)
    (hsa : (i, sbytes) ∈ db.storage_addresses)
    (hparse : ext.fromHex ("0x" ++ hexOfBytes sbytes) = some f)
    (hacct : SMap.lookup (accounts_hash_map ext ad.accounts) f = some acct)
    (hu : u' ∈ db.storage_updates)
    (hcid : u'.contract_address_id = ci) (hsid : u'.storage_address_id = i)
    (hmax : ∀ u ∈ db.storage_updates, u.contract_address_id = ci →
      u.storage_address_id = i → u ≠ u' → u.block_number < u'.block_number)
    (hv : ext.fromHex (hexOfBytes u'.storage_value) = none) :
    ∃ m bm, get_balance_map ext db S ad = Except.ok m ∧
      SMap.lookup m t = some bm ∧ SMap.lookup bm acct = some 0 := by
  rcases lookup_balance_master ext db S ad t ci i sbytes f acct u' hwf hS ht hca
    hsa hparse hacct hu hcid hsid hmax with ⟨m, bm, hok, hmt, hba⟩
  refine ⟨m, bm, hok, hmt, ?_⟩
  rw [hba, hv]
  rfl

/-- Witness for C6: the slot's only write has an empty value BLOB, whose
hex string parses to no field element; the account is recorded with
balance zero and the run succeeds. -/
theorem c6_decode_zero_witness :
    ∃ m bm, get_balance_map extW dbC6w 2 addrsW = Except.ok m ∧
      SMap.lookup m 7 = some bm ∧ SMap.lookup bm 9 = some 0 :=
  c6_decode_zero extW dbC6w 2 addrsW 7 1 1 [10] 10 9
    { contract_address_id := 1, storage_address_id := 1
      storage_value := [], block_number := 100 }
    (by decide) (by decide) (by decide) (by decide) (by decide) (by decide)
    (by decide) (by decide) (by decide) (by decide) (by decide) (by decide)

/-- Counterexample to C6 as stated: in `dbC6` the block-100 Observation
of the matching slot has an unparseable (empty) value BLOB, yet the
(token, account) entry is recorded as 5 — the parsed block-200 value —
not zero, because the unparseable Observation is superseded inside its
group before the zero-defaulting code ever sees it. -/
theorem c6_counterexample :
    mkFromHex (hexOfBytes ([] : List Nat)) = none ∧
    ((get_balance_map extW dbC6 2 addrsW).toOption.bind (fun m =>
      (SMap.lookup m 7).bind (fun bm => SMap.lookup bm 9))) = some 5 ∧
    (5 : Nat) ≠ 0 := by
  refine ⟨by decide, by decide, by decide⟩

theorem joinedRows_append (sas cas : List (Nat × List Nat)) (tb : List Nat)
    (a b : List UpdateRow) :
    joinedRows sas cas tb (a ++ b) =
      joinedRows sas cas tb a ++ joinedRows sas cas tb b := by
  unfold joinedRows
  exact List.flatMap_append a b _

theorem mem_joinedRows_single_key (sas cas : List (Nat × List Nat)) (tb : List Nat)
    (u : UpdateRow) (r : JRow) (hr : r ∈ joinedRows sas cas tb [u]) :
    jkey r = (u.contract_address_id, u.storage_address_id) := by
  rcases mem_joined_elim sas cas tb [u] r hr with
    ⟨u', hu', _sa, _hsa, _ca, _hca, _h1, _h2, _h3, hre⟩
  have : u' = u := by simpa using hu'
  subst this
  rw [hre]
  rfl

theorem filter_flatten {α : Type} (p : α → Bool) (L : List (List α)) :
    (L.flatten).filter p = (L.map (List.filter p)).flatten := by
  induction L with
  | nil => rfl
  | cons l rest ih =>
    rw [List.flatten_cons, List.filter_append, List.map_cons, List.flatten_cons, ih]

theorem filterMap_drop_none {α β : Type} (h : α → Option β) (q : α → Bool)
    (l : List α) (hnone : ∀ k ∈ l, q k = false → h k = none) :
    l.filterMap h = (l.filter q).filterMap h := by
  induction l with
  | nil => rfl
  | cons k rest ih =>
    by_cases hq : q k = true
    · have hfc : (k :: rest).filter q = k :: rest.filter q := by
        simp [List.filter_cons, hq]
      rw [hfc, List.filterMap_cons, List.filterMap_cons,
        ih (fun x hx => hnone x (List.mem_cons_of_mem _ hx))]
    · have hq' : q k = false := by simpa using hq
      have hfc : (k :: rest).filter q = rest.filter q := by
        simp [List.filter_cons, hq']
      rw [hfc, List.filterMap_cons, hnone k (List.mem_cons_self _ _) hq',
        ih (fun x hx => hnone x (List.mem_cons_of_mem _ hx))]

theorem groupOut_slot_miss (ext : Externals) (sas cas : List (Nat × List Nat))
    (tb : List Nat) (ups : List UpdateRow) (hm : List (Nat × Nat))
    (i : Nat) (sbytes : List Nat) (f : Nat)
    (hnds : (sas.map Prod.fst).Nodup) (hsa : (i, sbytes) ∈ sas)
    (hparse : ext.fromHex ("0x" ++ hexOfBytes sbytes) = some f)
    (hmiss : SMap.lookup hm f = none)
    (k : Nat × Nat) (hk : k.2 = i) (x : ShardRow)
    (hx : groupOut (joinedRows sas cas tb ups) k = some x) :
    relRow ext hm x = false := by
  unfold groupOut at hx
  rcases Option.map_eq_some'.mp hx with ⟨px, hpx, hxeq⟩
  have hpmem := pickMax_mem _ _ hpx
  rcases List.mem_filter.mp hpmem with ⟨hpR, hpk⟩
  have hpk' : jkey px = k := by simpa using hpk
  rcases mem_joined_elim sas cas tb ups px hpR with
    ⟨u', _hu', sa, hsam, ca, _hcam, hsaid, _hcaid, _hcatb, hpe⟩
  have hsid : sa.1 = i := by
    have h1 : px.upd.storage_address_id = k.2 := by
      rw [← hpk']
      rfl
    rw [hsaid, hpe] at *
    simp only [hpe] at h1
    rw [hsaid]
    rw [h1, hk]
  have hsaeq : sa = (i, sbytes) := by
    have hmemf : sa ∈ sas.filter (fun p => decide (p.1 = i)) :=
      List.mem_filter.mpr ⟨hsam, by simp [hsid]⟩
    rw [filter_fst_eq_single sas i sbytes hnds hsa] at hmemf
    simpa using hmemf
  have hxs : x.storage_hex = hexOfBytes sbytes := by
    rw [← hxeq, hpe]
    simp only
    rw [show sa.2 = sbytes from congrArg Prod.snd hsaeq]
  have hxs2 : ext.fromHex ("0x" ++ x.storage_hex) = some f := by
    rw [hxs]
    exact hparse
  simp [relRow, hxs2, hmiss]

theorem shardRows_filter_slot_miss (ext : Externals) (db : DB) (S s : Nat)
    (hm : List (Nat × Nat)) (tb : List Nat)
    (pre post : List UpdateRow) (u : UpdateRow) (i : Nat) (sbytes : List Nat)
    (f : Nat)
    (hnds : (db.storage_addresses.map Prod.fst).Nodup)
    (hupd : db.storage_updates = pre ++ u :: post)
    (hi : u.storage_address_id = i)
    (hsa : (i, sbytes) ∈ db.storage_addresses)
    (hparse : ext.fromHex ("0x" ++ hexOfBytes sbytes) = some f)
    (hmiss : SMap.lookup hm f = none) :
    (shardRows db tb S s).filter (relRow ext hm) =
      (shardRows { db with storage_updates := pre ++ post } tb S s).filter
        (relRow ext hm) := by
  have hR : db.joined tb =
      joinedRows db.storage_addresses db.contract_addresses tb pre ++
      (joinedRows db.storage_addresses db.contract_addresses tb [u] ++
       joinedRows db.storage_addresses db.contract_addresses tb post) := by
    show joinedRows db.storage_addresses db.contract_addresses tb
      db.storage_updates = _
    rw [hupd, show pre ++ u :: post = pre ++ ([u] ++ post) from by simp,
      joinedRows_append, joinedRows_append]
  have hR' : (({ db with storage_updates := pre ++ post } : DB)).joined tb =
      joinedRows db.storage_addresses db.contract_addresses tb pre ++
      joinedRows db.storage_addresses db.contract_addresses tb post := by
    show joinedRows db.storage_addresses db.contract_addresses tb (pre ++ post) = _
    rw [joinedRows_append]
  have hgroups : ∀ k : Nat × Nat, k.2 ≠ i →
      (db.joined tb).filter (fun r => decide (jkey r = k)) =
      ((({ db with storage_updates := pre ++ post } : DB)).joined tb).filter
        (fun r => decide (jkey r = k)) := by
    intro k hk
    rw [hR, hR', List.filter_append, List.filter_append, List.filter_append]
    have hJu : (joinedRows db.storage_addresses db.contract_addresses tb
        [u]).filter (fun r => decide (jkey r = k)) = [] := by
      rw [List.filter_eq_nil_iff]
      intro r hr
      have hkr := mem_joinedRows_single_key db.storage_addresses
        db.contract_addresses tb u r hr
      simp only [decide_eq_true_eq]
      intro hc
      apply hk
      rw [← hc, hkr, hi]
    rw [hJu]
    simp
  have hgo : ∀ k : Nat × Nat, k.2 ≠ i →
      groupOut (db.joined tb) k =
      groupOut ((({ db with storage_updates := pre ++ post } : DB)).joined tb) k := by
    intro k hk
    unfold groupOut
    rw [hgroups k hk]
  have hkeys : ((db.joined tb).map jkey).filter (fun k => decide (¬ k.2 = i)) =
      (((({ db with storage_updates := pre ++ post } : DB)).joined tb).map
        jkey).filter (fun k => decide (¬ k.2 = i)) := by
    rw [hR, hR', List.map_append, List.map_append, List.map_append,
      List.filter_append, List.filter_append, List.filter_append]
    have hJu : ((joinedRows db.storage_addresses db.contract_addresses tb
        [u]).map jkey).filter (fun k => decide (¬ k.2 = i)) = [] := by
      rw [List.filter_eq_nil_iff]
      intro k hkm
      rcases List.mem_map.mp hkm with ⟨r, hr, hre⟩
      have hkr := mem_joinedRows_single_key db.storage_addresses
        db.contract_addresses tb u r hr
      simp only [decide_eq_true_eq, Decidable.not_not]
      rw [← hre, hkr, hi]
    rw [hJu]
    simp
  have hnoneL : ∀ k ∈ ((dedupF ((db.joined tb).map jkey)).filter
      (fun k => decide (k.2 % S = s))),
      (fun k : Nat × Nat => decide (¬ k.2 = i)) k = false →
      Option.filter (relRow ext hm) (groupOut (db.joined tb) k) = none := by
    intro k _hk hkf
    have hki : k.2 = i := by simpa using hkf
    cases hgo2 : groupOut (db.joined tb) k with
    | none => rfl
    | some x =>
      have hrel := groupOut_slot_miss ext db.storage_addresses
        db.contract_addresses tb db.storage_updates hm i sbytes f hnds hsa
        hparse hmiss k hki x hgo2
      simp [Option.filter, hrel]
  have hnoneR : ∀ k ∈ ((dedupF (((({ db with storage_updates := pre ++ post } :
      DB)).joined tb).map jkey)).filter (fun k => decide (k.2 % S = s))),
      (fun k : Nat × Nat => decide (¬ k.2 = i)) k = false →
      Option.filter (relRow ext hm)
        (groupOut ((({ db with storage_updates := pre ++ post } : DB)).joined tb)
          k) = none := by
    intro k _hk hkf
    have hki : k.2 = i := by simpa using hkf
    cases hgo2 : groupOut ((({ db with storage_updates := pre ++ post } :
        DB)).joined tb) k with
    | none => rfl
    | some x =>
      have hrel := groupOut_slot_miss ext db.storage_addresses
        db.contract_addresses tb (pre ++ post) hm i sbytes f hnds hsa
        hparse hmiss k hki x hgo2
      simp [Option.filter, hrel]
  rw [shardRows_decomp db tb S s,
    shardRows_decomp ({ db with storage_updates := pre ++ post } : DB) tb S s,
    List.filter_filterMap, List.filter_filterMap]
  rw [filterMap_drop_none _ (fun k : Nat × Nat => decide (¬ k.2 = i)) _
    (fun k hk hkf => hnoneL k hk hkf)]
  rw [filterMap_drop_none _ (fun k : Nat × Nat => decide (¬ k.2 = i)) _
    (fun k hk hkf => hnoneR k hk hkf)]
  have hcomm : ∀ (K : List (Nat × Nat)),
      (K.filter (fun k => decide (k.2 % S = s))).filter
        (fun k => decide (¬ k.2 = i)) =
      (K.filter (fun k => decide (¬ k.2 = i))).filter
        (fun k => decide (k.2 % S = s)) := by
    intro K
    rw [List.filter_filter, List.filter_filter]
    apply List.filter_congr
    intro k _
    rw [Bool.and_comm]
  rw [hcomm, hcomm]
  have hKq : (dedupF ((db.joined tb).map jkey)).filter
      (fun k => decide (¬ k.2 = i)) =
      (dedupF (((({ db with storage_updates := pre ++ post } : DB)).joined
        tb).map jkey)).filter (fun k => decide (¬ k.2 = i)) := by
    rw [← dedupF_filter, ← dedupF_filter, hkeys]
  rw [hKq]
  apply List.filterMap_congr
  intro k hk
  rcases List.mem_filter.mp hk with ⟨hk1, _hk2⟩
  rcases List.mem_filter.mp hk1 with ⟨_hk3, hkq⟩
  have hkne : k.2 ≠ i := by simpa using hkq
  rw [hgo k hkne]

/-- C5: an Observation whose storage slot parses to a field element that
is not a key of the slot→account table contributes nothing to the output
— deleting it from the log leaves the returned BalanceMapping unchanged —
and the run succeeds either way.  (The `Nodup` hypothesis is the
schema's `storage_addresses.id INTEGER PRIMARY KEY` constraint.) -/
theorem c5_slot_miss_discarded (ext : Externals) (db : DB) (S : Nat)
    (ad : Addresses) (pre post : List UpdateRow) (u : UpdateRow) (i : Nat)
    (sbytes : List Nat) (f : Nat)
    (hnds : (db.storage_addresses.map Prod.fst).Nodup)
    (hupd : db.storage_updates = pre ++ u :: post)
    (hi : u.storage_address_id = i)
    (hsa : (i, sbytes) ∈ db.storage_addresses)
    (hparse : ext.fromHex ("0x" ++ hexOfBytes sbytes) = some f)
    (hmiss : SMap.lookup (accounts_hash_map ext ad.accounts) f = none) :
    get_balance_map ext db S ad =
      get_balance_map ext { db with storage_updates := pre ++ post } S ad ∧
    ∃ m, get_balance_map ext db S ad = Except.ok m := by
  refine ⟨?_, ⟨_, get_balance_map_ok ext db S ad⟩⟩
  rw [get_balance_map_ok, get_balance_map_ok]
  congr 1
  apply foldl_insert_congr
  intro t _ht
  unfold tokenBal
  rw [foldl_processRow_skip ext (accounts_hash_map ext ad.accounts)
      (((List.range S).map (fun s => shardRows db (ext.tokenEnc t) S s)).flatten) [],
    foldl_processRow_skip ext (accounts_hash_map ext ad.accounts)
      (((List.range S).map (fun s =>
        shardRows { db with storage_updates := pre ++ post }
          (ext.tokenEnc t) S s)).flatten) []]
  congr 1
  rw [filter_flatten, filter_flatten]
  congr 1
  rw [List.map_map, List.map_map]
  apply List.map_congr_left
  intro s _hs
  exact shardRows_filter_slot_miss ext db S s (accounts_hash_map ext ad.accounts)
    (ext.tokenEnc t) pre post u i sbytes f hnds hupd hi hsa hparse hmiss

/-- Witness for C5: deleting the write to the unmatched slot `[11]` from
`dbC5` leaves the output unchanged, and the run succeeds. -/
theorem c5_slot_miss_discarded_witness :
    get_balance_map extW dbC5 2 addrsW =
      get_balance_map extW { dbC5 with storage_updates :=
        [ { contract_address_id := 1, storage_address_id := 1
            storage_value := [3, 232], block_number := 100 } ] ++ [] } 2 addrsW ∧
    ∃ m, get_balance_map extW dbC5 2 addrsW = Except.ok m :=
  c5_slot_miss_discarded extW dbC5 2 addrsW
    [ { contract_address_id := 1, storage_address_id := 1
        storage_value := [3, 232], block_number := 100 } ] []
    { contract_address_id := 1, storage_address_id := 2
      storage_value := [5], block_number := 100 } 2 [11] 11
    (by decide) (by decide) (by decide) (by decide) (by decide) (by decide)
